import Mathlib

/-!
Verification of the goppp PPPoE/LCP codecs and session plumbing.

Shallow embedding of:
* the PPPoE Discovery codec (`parseDiscoveryPacket` / `encodeDiscoveryPacket`
  and the PADS read loop) from `internal/pppoe/discovery.go`;
* the LCP codec (`Parse` / `(*Packet).Bytes`) from the `internal/lcp` package;
* `(*Conn).Close` from `pppoe/pppoe.go`;
* the session-socket helpers `setTimeout` / `sendSessionPacket`.

Bytes are modelled as `Nat` (well-formed inputs carry `< 256` bounds where a
theorem needs them); Go `uint8`/`uint16` conversions are modelled with explicit
`% 256` / `% 65536`.  Go maps (`map[int][]byte`, `map[uint8][]byte`) are
modelled as association lists sorted strictly by key — the canonical
representation of a finite map, so Go map equality is list equality.  Map
assignment is `insertTag` (an order-preserving overwrite-insert), and the
ascending-key iteration that `sort.Ints` produces in the Go encoder is plain
left-to-right iteration of the sorted list.
-/

namespace GoPPP

/-- Big-endian bytes of a 16-bit write, as performed by `binary.Write` with a
`uint16` argument (the argument is reduced mod 2^16 by the Go conversion). -/
def be16 (n : Nat) : List Nat := [n / 256 % 256, n % 256]

/-- Big-endian bytes of a 32-bit write (`binary.Write` with a `uint32`). -/
def be32 (n : Nat) : List Nat :=
  [n / 16777216 % 256, n / 65536 % 256, n / 256 % 256, n % 256]

/-- Reassemble a big-endian 16-bit integer, as `binary.BigEndian.Uint16`. -/
def read16 (hi lo : Nat) : Nat := hi * 256 + lo

/-- Reassemble a big-endian 32-bit integer, as `binary.BigEndian.Uint32`. -/
def read32 (a b c d : Nat) : Nat := ((a * 256 + b) * 256 + c) * 256 + d

/-- A Go map with `Nat` keys and byte-string values, represented as an
association list sorted strictly by key. -/
abbrev TagMap := List (Nat × List Nat)

/-- Map assignment `m[k] = v`: order-preserving insert that overwrites an
existing binding for `k`. -/
def insertTag (k : Nat) (v : List Nat) : TagMap → TagMap
  | [] => [(k, v)]
  | (k0, v0) :: rest =>
    if k < k0 then (k, v) :: (k0, v0) :: rest
    else if k = k0 then (k, v) :: rest
    else (k0, v0) :: insertTag k v rest

/-- Map lookup `m[k]` (first binding wins; sorted maps have at most one). -/
def lookupTag (k : Nat) : TagMap → Option (List Nat)
  | [] => none
  | (k0, v0) :: rest => if k = k0 then some v0 else lookupTag k rest

/-- Map deletion `delete(m, k)`. -/
def eraseKey (k : Nat) (m : TagMap) : TagMap :=
  m.filter (fun kv => kv.1 ≠ k)

/-- Well-formedness of the association-list representation: keys strictly
ascending (hence unique).  Every Go map value has exactly one representation
of this shape. -/
def WFMap (m : TagMap) : Prop := List.Pairwise (fun a b => a.1 < b.1) m

instance (m : TagMap) : Decidable (WFMap m) := by
  unfold WFMap; infer_instance

/-! ## PPPoE Discovery codec — `internal/pppoe/discovery.go` -/

/-- Parsed PPPoE Discovery packet (`discoveryPacket` in Go). -/
structure discoveryPacket where
  Code : Nat
  SessionID : Nat
  Tags : TagMap
deriving DecidableEq, Repr

/-- The TLV loop of `parseDiscoveryPacket`: `for len(pkt) > 0 { ... }`,
accumulating tags into the map `acc`.  The loop consumes at least four bytes
per iteration, so it is given the remaining byte count as structural fuel;
`parseTags` below instantiates the fuel with the packet length, which never
runs out (`parseTagsGo_fuel`). -/
def parseTagsGo : Nat → List Nat → TagMap → Option TagMap
  | _, [], acc => some acc
  | fuel + 1, t0 :: t1 :: l0 :: l1 :: rest, acc =>
    let tagType := read16 t0 t1
    let tagLen := read16 l0 l1
    if rest.length < tagLen then none
    else
      let tagValue := rest.take tagLen
      -- tagType == pppoeTagServiceName (0x0101) && tagLen != 0
      if tagType = 0x0101 ∧ tagLen ≠ 0 then none
      else parseTagsGo fuel (rest.drop tagLen) (insertTag tagType tagValue acc)
  | _ + 1, _, _ => none  -- fewer than 4 bytes remain: "trailing garbage"
  | 0, _, _ => none  -- unreachable: fuel ≥ remaining length

/-- The TLV loop, entered with the remaining packet bytes. -/
def parseTags (pkt : List Nat) (acc : TagMap) : Option TagMap :=
  parseTagsGo pkt.length pkt acc

/-- Specification predicate (not part of the Go code): the TLV type
sequence of a raw tag stream is strictly ascending, where `prev` is the last
type seen.  The walk mirrors `parseTagsGo`, byte-count fuel included; on
streams the parser rejects the predicate is vacuously true. -/
def tagsAscGo : Nat → Option Nat → List Nat → Bool
  | _, _, [] => true
  | fuel + 1, prev, t0 :: t1 :: l0 :: l1 :: rest =>
    (match prev with
     | none => true
     | some k => decide (k < read16 t0 t1)) &&
    (if read16 l0 l1 ≤ rest.length then
      tagsAscGo fuel (some (read16 t0 t1)) (rest.drop (read16 l0 l1))
    else true)
  | _ + 1, _, _ => true
  | 0, _, _ => true

/-- Ascending TLV types, entered with the stream bytes. -/
def tagsAsc (prev : Option Nat) (pkt : List Nat) : Bool :=
  tagsAscGo pkt.length prev pkt

/-- Ascending TLV types for a whole Discovery packet (its payload after the
6 header bytes). -/
def discTagsAsc (x : List Nat) : Bool :=
  match x with
  | _ :: _ :: _ :: _ :: _ :: _ :: rest => tagsAsc none rest
  | _ => true

/-- `parseDiscoveryPacket` from `internal/pppoe/discovery.go`. -/
def parseDiscoveryPacket (pkt : List Nat) : Option discoveryPacket :=
  match pkt with
  | b0 :: b1 :: b2 :: b3 :: b4 :: b5 :: rest =>
    if b0 ≠ 0x11 then none
    else
      let tlvLen := read16 b4 b5
      if tlvLen ≠ rest.length then none
      else (parseTags rest []).map fun tags =>
        { Code := b1, SessionID := read16 b2 b3, Tags := tags }
  | _ => none  -- len(pkt) < 6: "packet too short"

/-- One TLV as written by the encoder: type, length, value. -/
def encodeTag (k : Nat) (v : List Nat) : List Nat :=
  be16 k ++ be16 v.length ++ v

/-- The encoder's TLV loop.  The Go code iterates the map keys in ascending
order (`sort.Ints`); on the sorted association list that is left-to-right
iteration. -/
def encodeTags : TagMap → List Nat
  | [] => []
  | (k, v) :: rest => encodeTag k v ++ encodeTags rest

/-- `encodeDiscoveryPacket`: header (version/type byte 0x11, code, session id,
payload length) followed by the TLVs in ascending tag order. -/
def encodeDiscoveryPacket (p : discoveryPacket) : List Nat :=
  let tlvLen := (p.Tags.map fun kv => kv.2.length).sum + 4 * p.Tags.length
  0x11 :: p.Code % 256 :: be16 p.SessionID ++ be16 tlvLen ++ encodeTags p.Tags

/-- `parsePADS`: parse a Discovery packet, require code 0x65 (PADS), and
return its session id.  (The Go code performs no non-zero check.) -/
def parsePADS (buf : List Nat) : Option Nat :=
  (parseDiscoveryPacket buf).bind fun pkt =>
    if pkt.Code ≠ 0x65 then none else some pkt.SessionID

/-- The read loop of `readPADS`, modelled over the finite list of frames
`(source address, bytes)` successfully delivered by `conn.ReadFrom` before the
deadline; `none` models exiting by timeout/error instead of acceptance. -/
def readPADS (concentrator : List Nat) :
    List (List Nat × List Nat) → Option Nat
  | [] => none
  | (src, buf) :: rest =>
    if src ≠ concentrator then readPADS concentrator rest  -- wrong peer, keep waiting
    else
      match parsePADS buf with
      | some sid => some sid
      | none => readPADS concentrator rest  -- not a valid PADS, keep waiting

/-! ## LCP codec — package `internal/lcp` -/

/-- An LCP packet (`lcp.Packet` in Go).  Fields unused by a given code keep
their Go zero value (0 / nil). -/
structure Packet where
  Code : Nat
  ID : Nat
  MRU : Nat
  AuthProto : Nat
  CHAPAlgorithm : Nat
  UnknownOptions : TagMap
  Data : List Nat
  RejectedProtocol : Nat
  Magic : Nat
deriving DecidableEq, Repr

/-- An LCP packet with the given code and id and all other fields at their Go
zero values, as produced by `ret := &Packet{Code: ..., ID: ...}`. -/
def emptyPacket (code id : Nat) : Packet :=
  { Code := code, ID := id, MRU := 0, AuthProto := 0, CHAPAlgorithm := 0,
    UnknownOptions := [], Data := [], RejectedProtocol := 0, Magic := 0 }

/-- The loop of `parseLCPOptions`, `ret[optionType] = value`; as with
`parseTagsGo` the remaining byte count serves as structural fuel (each
iteration consumes at least two bytes). -/
def parseLCPOptionsGo : Nat → List Nat → TagMap → Option TagMap
  | _, [], acc => some acc
  | _, [_], _ => none  -- trailing garbage at end of packet
  | fuel + 1, t :: l :: rest, acc =>
    if l < 2 then none  -- option length too short
    else if rest.length + 2 < l then none  -- option length overflows packet
    else parseLCPOptionsGo fuel (rest.drop (l - 2)) (insertTag t (rest.take (l - 2)) acc)
  | 0, _, _ => none  -- unreachable: fuel ≥ remaining length

/-- `parseLCPOptions`: walk the option TLV stream of a configure-family
payload. -/
def parseLCPOptions (b : List Nat) (acc : TagMap) : Option TagMap :=
  parseLCPOptionsGo b.length b acc

/-- Validation/decoding of a recognized `optionMRU` value: length must be 2. -/
def parseMRUOpt : List Nat → Option Nat
  | [a, b] => some (read16 a b)
  | _ => none

/-- Validation/decoding of a recognized `optionAuthProto` value: length at
least 2; for CHAP (0xc223) exactly one algorithm byte follows, otherwise
nothing may follow.  Returns `(AuthProto, CHAPAlgorithm)`. -/
def parseAuthProtoOpt : List Nat → Option (Nat × Nat)
  | a :: b :: rest =>
    let ap := read16 a b
    if ap = 0xc223 then
      match rest with
      | [c] => some (ap, c)
      | _ => none
    else
      match rest with
      | [] => some (ap, 0)
      | _ => none
  | _ => none

/-- Validation/decoding of a recognized `optionMagic` value: length must be 4. -/
def parseMagicOpt : List Nat → Option Nat
  | [a, b, c, d] => some (read32 a b c d)
  | _ => none

/-- The configure-family body of `Parse`: Go iterates over the parsed option
map, validating and extracting MRU (1), AuthProto (3) and Magic (5) and
deleting them from the map; the leftovers become `UnknownOptions`.  The keys
are distinct, so the map-iteration order is immaterial and the extraction is
rendered as three lookups plus deletions. -/
def applyConfigOptions (pkt0 : Packet) (opts : TagMap) : Option Packet :=
  (match lookupTag 1 opts with
   | none => some 0
   | some v => parseMRUOpt v).bind fun mru =>
  (match lookupTag 3 opts with
   | none => some (0, 0)
   | some v => parseAuthProtoOpt v).bind fun ap =>
  (match lookupTag 5 opts with
   | none => some 0
   | some v => parseMagicOpt v).bind fun magic =>
  some { pkt0 with
           MRU := mru, AuthProto := ap.1, CHAPAlgorithm := ap.2, Magic := magic,
           UnknownOptions := eraseKey 1 (eraseKey 3 (eraseKey 5 opts)) }

/-- The Protocol-Reject payload of `Parse`: at least two bytes, the rejected
protocol, then the mirrored data. -/
def parseProtoRejectPayload (b0 b1 : Nat) : List Nat → Option Packet
  | a :: c :: ds =>
    some { emptyPacket b0 b1 with RejectedProtocol := read16 a c, Data := ds }
  | _ => none

/-- The Echo/Discard payload of `Parse`: at least four bytes of magic, then
the data. -/
def parseEchoPayload (b0 b1 : Nat) : List Nat → Option Packet
  | a :: c :: d :: e :: ds =>
    some { emptyPacket b0 b1 with Magic := read32 a c d e, Data := ds }
  | _ => none

/-- The `switch ret.Code` dispatch of `lcp.Parse` on the declared-length
payload. -/
def lcpDispatch (b0 b1 : Nat) (payload : List Nat) : Option Packet :=
  if b0 = 1 ∨ b0 = 2 ∨ b0 = 3 ∨ b0 = 4 then
    (parseLCPOptions payload []).bind (applyConfigOptions (emptyPacket b0 b1))
  else if b0 = 8 then parseProtoRejectPayload b0 b1 payload
  else if b0 = 5 ∨ b0 = 6 ∨ b0 = 7 then
    some { emptyPacket b0 b1 with Data := payload }
  else if b0 = 9 ∨ b0 = 10 ∨ b0 = 11 then parseEchoPayload b0 b1 payload
  else none  -- unknown LCP packet type

/-- `lcp.Parse`: check the `0xc021` protocol prefix and the declared LCP
length `N` (`4 ≤ N ≤ len(b) - 2`; trailing padding beyond `N` is ignored),
then dispatch on the code byte over the `N - 4` payload bytes. -/
def Parse (b : List Nat) : Option Packet :=
  match b with
  | p0 :: p1 :: b0 :: b1 :: b2 :: b3 :: rest =>
    if read16 p0 p1 ≠ 0xc021 then none
    else if read16 b2 b3 < 4 then none
    else if 4 + rest.length < read16 b2 b3 then none
    else lcpDispatch b0 b1 (rest.take (read16 b2 b3 - 4))
  | _ => none  -- len(b) < 6

/-- The unknown-option loop of `Bytes`: each option is written as type byte,
`uint8(len(val) + 2)`, value.  (Go iterates the map; on the sorted list this
is ascending-key order.) -/
def unknownOptsBytes : TagMap → List Nat
  | [] => []
  | (k, v) :: rest => k % 256 :: (v.length + 2) % 256 :: v ++ unknownOptsBytes rest

/-- The configure-family body of `Bytes`: MRU, AuthProto (5 bytes with the
CHAP algorithm byte when `CHAPAlgorithm != 0`, else 4), Magic, each emitted
only when non-zero, then the unknown options. -/
def configOptsBytes (p : Packet) : List Nat :=
  (if p.MRU ≠ 0 then 1 :: 4 :: be16 p.MRU else [])
  ++ (if p.AuthProto ≠ 0 then
        3 :: (if p.CHAPAlgorithm ≠ 0 then 5 else 4) :: be16 p.AuthProto
          ++ (if p.CHAPAlgorithm ≠ 0 then [p.CHAPAlgorithm % 256] else [])
      else [])
  ++ (if p.Magic ≠ 0 then 5 :: 6 :: be32 p.Magic else [])
  ++ unknownOptsBytes p.UnknownOptions

/-- The code-specific body written by `Bytes` after the 4 header bytes. -/
def lcpBody (p : Packet) : List Nat :=
  if p.Code = 1 ∨ p.Code = 2 ∨ p.Code = 3 ∨ p.Code = 4 then configOptsBytes p
  else if p.Code = 8 then be16 p.RejectedProtocol ++ p.Data
  else if p.Code = 5 ∨ p.Code = 6 ∨ p.Code = 7 then p.Data
  else if p.Code = 9 ∨ p.Code = 10 ∨ p.Code = 11 then be32 p.Magic ++ p.Data
  else []

/-- `(*Packet).Bytes`: protocol prefix `0xc021`, code, id, the LCP length
(total bytes minus the 2-byte protocol prefix, back-patched as `uint16`), then
the code-specific body. -/
def Packet.Bytes (p : Packet) : List Nat :=
  0xc0 :: 0x21 :: p.Code % 256 :: p.ID % 256 ::
    (4 + (lcpBody p).length) % 65536 / 256 ::
    (4 + (lcpBody p).length) % 65536 % 256 :: lcpBody p

/-- The recognized-option map built while parsing the MRU/AuthProto/Magic
options emitted by `Bytes`, in emission order. -/
def recogAcc (p : Packet) : TagMap :=
  let a1 : TagMap := if p.MRU ≠ 0 then insertTag 1 (be16 p.MRU) [] else []
  let a2 := if p.AuthProto ≠ 0 then
    insertTag 3 (be16 p.AuthProto
      ++ (if p.CHAPAlgorithm ≠ 0 then [p.CHAPAlgorithm % 256] else [])) a1
    else a1
  let a3 := if p.Magic ≠ 0 then insertTag 5 (be32 p.Magic) a2 else a2
  a3

/-- Internal consistency of an LCP packet: the code is one of the 11 LCP
codes, every field is in range for its wire width, each code-specific field
is used only by its code family, a CHAP algorithm byte is carried exactly
when AuthProto is CHAP (0xc223), the unknown options form a well-formed
uint8-keyed map avoiding the recognized types with values short enough for
the one-byte option length, and the encoding's LCP length fits a uint16. -/
def consistent (p : Packet) : Prop :=
  1 ≤ p.Code ∧ p.Code ≤ 11 ∧ p.ID < 256 ∧
  4 + (lcpBody p).length < 65536 ∧
  (p.Code ≤ 4 →
    p.MRU < 65536 ∧ p.AuthProto < 65536 ∧ p.CHAPAlgorithm < 256 ∧
    p.Magic < 4294967296 ∧
    (p.CHAPAlgorithm ≠ 0 ↔ p.AuthProto = 0xc223) ∧
    WFMap p.UnknownOptions ∧
    (∀ kv ∈ p.UnknownOptions,
      kv.1 < 256 ∧ kv.1 ≠ 1 ∧ kv.1 ≠ 3 ∧ kv.1 ≠ 5 ∧ kv.2.length ≤ 253) ∧
    p.Data = [] ∧ p.RejectedProtocol = 0) ∧
  (5 ≤ p.Code → p.Code ≤ 7 →
    p.MRU = 0 ∧ p.AuthProto = 0 ∧ p.CHAPAlgorithm = 0 ∧ p.Magic = 0 ∧
    p.UnknownOptions = [] ∧ p.RejectedProtocol = 0) ∧
  (p.Code = 8 →
    p.MRU = 0 ∧ p.AuthProto = 0 ∧ p.CHAPAlgorithm = 0 ∧ p.Magic = 0 ∧
    p.UnknownOptions = [] ∧ p.RejectedProtocol < 65536) ∧
  (9 ≤ p.Code →
    p.MRU = 0 ∧ p.AuthProto = 0 ∧ p.CHAPAlgorithm = 0 ∧
    p.Magic < 4294967296 ∧ p.UnknownOptions = [] ∧ p.RejectedProtocol = 0)

set_option synthInstance.maxSize 2048 in
set_option maxHeartbeats 1000000 in
instance (p : Packet) : Decidable (consistent p) := by
  unfold consistent; infer_instance

/-- The spec's scenario-5 LCP Configure-Request test vector. -/
def lcpVec : List Nat :=
  [0xC0, 0x21, 0x01, 0x01, 0x00, 0x16, 0x01, 0x04, 0x05, 0xDC, 0x03, 0x05,
   0xC2, 0x23, 0x05, 0x05, 0x06, 0x01, 0x02, 0x03, 0x04, 0x2A, 0x03, 0x01]

/-- The packet that `lcpVec` decodes to (spec scenario 5). -/
def lcpVecPacket : Packet :=
  { Code := 1, ID := 1, MRU := 1500, AuthProto := 0xc223, CHAPAlgorithm := 5,
    Magic := 0x01020304, UnknownOptions := [(42, [1])], Data := [],
    RejectedProtocol := 0 }

/-! ## Connection teardown — `(*Conn).Close` in `pppoe/pppoe.go`

The four teardown steps call into the kernel; their outcomes are inputs of
the model (`CloseEnv`).  `Close` records which steps it performed. -/

/-- One teardown step of `Close`, in source order. -/
inductive CloseStep where
  | closeChannel
  | closeSessionFd
  | sendPADT
  | closeDiscovery
deriving DecidableEq, Repr

/-- Outcomes of the four teardown calls (`nil` = `none`). -/
structure CloseEnv where
  channelErr : Option Nat
  sessErr : Option Nat
  padtErr : Option Nat
  discErr : Option Nat

/-- The `Conn` state that `Close` reads and writes: the `closed` tombstone. -/
structure Conn where
  closed : Bool

/-- Result of one `Close` call: the updated `Conn`, the returned error, and
the teardown steps that were attempted. -/
structure CloseOutcome where
  conn : Conn
  err : Option Nat
  steps : List CloseStep

/-- `(*Conn).Close`: a closed `Conn` is a no-op returning nil; otherwise set
the tombstone, run all four teardown steps unconditionally, and return the
first non-nil error in source order. -/
def Conn.Close (c : Conn) (env : CloseEnv) : CloseOutcome :=
  if c.closed then { conn := c, err := none, steps := [] }
  else
    let channelErr := env.channelErr
    let sessErr := env.sessErr
    let padtErr := env.padtErr
    let discErr := env.discErr
    let err :=
      match channelErr with
      | some e => some e
      | none =>
        match sessErr with
        | some e => some e
        | none =>
          match padtErr with
          | some e => some e
          | none =>
            match discErr with
            | some e => some e
            | none => none
    { conn := { closed := true }, err := err,
      steps := [.closeChannel, .closeSessionFd, .sendPADT, .closeDiscovery] }

/-! ## Session socket helpers — `session.go` (`setTimeout`,
`sendSessionPacket`)

Time is abstracted to the deadline's distance from now in microseconds
(`time.Until(deadline).Truncate(time.Microsecond)`), plus a flag for the zero
deadline.  A `Setsockopt` call is modelled by the request it issues to the
kernel. -/

def SOL_SOCKET : Nat := 1
def SO_RCVTIMEO : Nat := 20
def SO_SNDTIMEO : Nat := 21

/-- A `unix.SetsockoptTimeval` request: level, option, `tv.Sec`, `tv.Usec`. -/
structure SockoptCall where
  level : Nat
  opt : Nat
  sec : Int
  usec : Int
deriving DecidableEq, Repr

set_option linter.unusedVariables false in
/-- `setTimeout(fd, opt, deadline)`: for the zero deadline install a zero
`Timeval`; for a past deadline fail with a timeout error; otherwise install
the remaining duration.  The request issued is returned.  Note that the Go
body passes the constant `unix.SO_RCVTIMEO` to `SetsockoptTimeval`, ignoring
its `opt` argument. -/
def setTimeout (opt : Nat) (deadlineIsZero : Bool) (remainMicros : Int) :
    Except Unit SockoptCall :=
  if deadlineIsZero then .ok ⟨SOL_SOCKET, SO_RCVTIMEO, 0, 0⟩
  else if remainMicros < 0 then .error ()  -- errors.New("timeout")
  else .ok ⟨SOL_SOCKET, SO_RCVTIMEO, remainMicros / 1000000, remainMicros % 1000000⟩

/-- Errors `sendSessionPacket` can return. -/
inductive SendErr where
  | osErr (e : Nat)
  | shortWrite (got want : Nat)
  | timeout
deriving DecidableEq, Repr

/-- The write/short-write logic of `sendSessionPacket` after the deadline
handling: `n, err := unix.Write(fd, pkt)`, whose outcome `(writeN, writeErr)`
is an input of the model. -/
def sendCore (pkt : List Nat) (writeN : Nat) (writeErr : Option Nat) :
    Except SendErr Nat :=
  match writeErr with
  | some e => .error (.osErr e)
  | none =>
    if writeN ≠ pkt.length then .error (.shortWrite writeN pkt.length)
    else .ok writeN

/-- `sendSessionPacket(fd, pkt, deadline)`: with a non-zero deadline first
arm the send timeout via `setTimeout(fd, unix.SO_SNDTIMEO, deadline)` (the
deferred reset passes the zero deadline and is modelled as succeeding), then
write and reject short writes. -/
def sendSessionPacket (pkt : List Nat) (deadlineIsZero : Bool)
    (remainMicros : Int) (writeN : Nat) (writeErr : Option Nat) :
    Except SendErr Nat :=
  if deadlineIsZero then sendCore pkt writeN writeErr
  else
    match setTimeout SO_SNDTIMEO false remainMicros with
    | .error _ => .error .timeout
    | .ok _ => sendCore pkt writeN writeErr

/-- The socket option that `sendSessionPacket`'s deadline path actually
installs: the request issued by its `setTimeout(fd, unix.SO_SNDTIMEO, ...)`
call. -/
def sendSessionPacketTimeoutOpt (remainMicros : Int) : Option Nat :=
  match setTimeout SO_SNDTIMEO false remainMicros with
  | .error _ => none
  | .ok call => some call.opt

/-! ## Lemmas about the sorted association-list maps -/

theorem insertTag_append (k : Nat) (v : List Nat) :
    ∀ acc : TagMap, (∀ kv ∈ acc, kv.1 < k) → insertTag k v acc = acc ++ [(k, v)] := by
  intro acc
  induction acc with
  | nil => intro _; rfl
  | cons kv0 rest ih =>
    intro h
    obtain ⟨k0, v0⟩ := kv0
    have hk0 : k0 < k := h (k0, v0) (List.mem_cons_self _ _)
    simp only [insertTag]
    rw [if_neg (by omega), if_neg (by omega), ih]
    · simp
    · intro kv hkv; exact h kv (List.mem_cons_of_mem _ hkv)

theorem lookupTag_insert_self (k : Nat) (v : List Nat) :
    ∀ m : TagMap, lookupTag k (insertTag k v m) = some v := by
  intro m
  induction m with
  | nil => simp [insertTag, lookupTag]
  | cons kv0 rest ih =>
    obtain ⟨k0, v0⟩ := kv0
    simp only [insertTag]
    by_cases h1 : k < k0
    · simp [h1, lookupTag]
    · by_cases h2 : k = k0
      · simp [h1, h2, lookupTag]
      · simp [h1, h2, lookupTag, ih]

theorem lookupTag_insert_ne (k k0 : Nat) (v : List Nat) (hne : k ≠ k0) :
    ∀ m : TagMap, lookupTag k (insertTag k0 v m) = lookupTag k m := by
  intro m
  induction m with
  | nil => simp [insertTag, lookupTag, hne]
  | cons kv1 rest ih =>
    obtain ⟨k1, v1⟩ := kv1
    simp only [insertTag]
    by_cases h1 : k0 < k1
    · simp [h1, lookupTag, hne]
    · by_cases h2 : k0 = k1
      · subst h2; simp [h1, lookupTag, hne]
      · simp [h1, h2, lookupTag, ih]

theorem mem_insertTag (k : Nat) (v : List Nat) (kv : Nat × List Nat) :
    ∀ m : TagMap, kv ∈ insertTag k v m → kv = (k, v) ∨ kv ∈ m := by
  intro m
  induction m with
  | nil => intro h; simpa [insertTag] using h
  | cons kv1 t ih =>
    intro hkv
    obtain ⟨k1, v1⟩ := kv1
    simp only [insertTag] at hkv
    by_cases g1 : k < k1
    · rw [if_pos g1] at hkv
      rcases List.mem_cons.mp hkv with h | h
      · exact Or.inl h
      · exact Or.inr h
    · by_cases g2 : k = k1
      · rw [if_neg g1, if_pos g2] at hkv
        rcases List.mem_cons.mp hkv with h | h
        · exact Or.inl h
        · exact Or.inr (List.mem_cons_of_mem _ h)
      · rw [if_neg g1, if_neg g2] at hkv
        rcases List.mem_cons.mp hkv with h | h
        · exact Or.inr (by simp [h])
        · rcases ih h with h2 | h2
          · exact Or.inl h2
          · exact Or.inr (List.mem_cons_of_mem _ h2)

theorem WFMap_insert (k : Nat) (v : List Nat) :
    ∀ m : TagMap, WFMap m → WFMap (insertTag k v m) := by
  intro m
  induction m with
  | nil => intro _; simp [insertTag, WFMap]
  | cons kv0 rest ih =>
    intro hwf
    obtain ⟨k0, v0⟩ := kv0
    rw [WFMap, List.pairwise_cons] at hwf
    obtain ⟨hlt, hrest⟩ := hwf
    simp only [insertTag]
    by_cases h1 : k < k0
    · rw [if_pos h1, WFMap, List.pairwise_cons]
      refine ⟨?_, ?_⟩
      · intro kv hkv
        rcases List.mem_cons.mp hkv with h | h
        · subst h; exact h1
        · exact lt_trans h1 (hlt kv h)
      · rw [WFMap] at *; exact List.pairwise_cons.mpr ⟨hlt, hrest⟩
    · by_cases h2 : k = k0
      · subst h2
        rw [if_neg h1, if_pos rfl, WFMap, List.pairwise_cons]
        exact ⟨hlt, hrest⟩
      · rw [if_neg h1, if_neg h2, WFMap, List.pairwise_cons]
        refine ⟨?_, ih hrest⟩
        intro kv hkv
        rcases mem_insertTag k v kv rest hkv with h | h
        · subst h; omega
        · exact hlt kv h

theorem lookupTag_eq_none_of_forall (k : Nat) :
    ∀ m : TagMap, (∀ kv ∈ m, kv.1 ≠ k) → lookupTag k m = none := by
  intro m
  induction m with
  | nil => intro _; rfl
  | cons kv0 rest ih =>
    intro h
    obtain ⟨k0, v0⟩ := kv0
    have : k0 ≠ k := h (k0, v0) (List.mem_cons_self _ _)
    simp only [lookupTag]
    rw [if_neg (by omega)]
    exact ih fun kv hkv => h kv (List.mem_cons_of_mem _ hkv)

theorem lookupTag_mem (k : Nat) (v : List Nat) :
    ∀ m : TagMap, lookupTag k m = some v → (k, v) ∈ m := by
  intro m
  induction m with
  | nil => intro h; simp [lookupTag] at h
  | cons kv0 rest ih =>
    intro h
    obtain ⟨k0, v0⟩ := kv0
    simp only [lookupTag] at h
    by_cases he : k = k0
    · rw [if_pos he] at h
      injection h with h
      subst he; subst h; simp
    · rw [if_neg he] at h
      exact List.mem_cons_of_mem _ (ih h)

theorem lookupTag_eraseKey_self (k : Nat) (m : TagMap) :
    lookupTag k (eraseKey k m) = none := by
  apply lookupTag_eq_none_of_forall
  intro kv hkv
  rw [eraseKey] at hkv
  have := List.of_mem_filter hkv
  simpa using this

theorem lookupTag_eraseKey_ne (k k0 : Nat) (hne : k ≠ k0) :
    ∀ m : TagMap, lookupTag k (eraseKey k0 m) = lookupTag k m := by
  intro m
  induction m with
  | nil => rfl
  | cons kv1 rest ih =>
    obtain ⟨k1, v1⟩ := kv1
    by_cases h : k1 = k0
    · subst h
      have : k ≠ k1 := hne
      simp only [eraseKey, List.filter] at *
      simp only [lookupTag]
      rw [if_neg this]
      simpa [eraseKey] using ih
    · simp only [eraseKey, List.filter] at *
      have hd : (decide (k1 ≠ k0)) = true := by simp [h]
      simp only [hd, lookupTag]
      by_cases he : k = k1
      · simp [he]
      · simp only [if_neg he]
        simpa [eraseKey] using ih

theorem WFMap_eraseKey (k : Nat) (m : TagMap) (h : WFMap m) :
    WFMap (eraseKey k m) := by
  rw [WFMap, eraseKey]
  exact List.Pairwise.filter _ h

theorem lookupTag_cons_self (k : Nat) (v : List Nat) (t : TagMap) :
    lookupTag k ((k, v) :: t) = some v := by
  simp [lookupTag]

theorem lookupTag_cons_ne (k k0 : Nat) (v : List Nat) (t : TagMap) (h : k ≠ k0) :
    lookupTag k ((k0, v) :: t) = lookupTag k t := by
  simp [lookupTag, h]

theorem WFMap_ext :
    ∀ m m' : TagMap, WFMap m → WFMap m' →
      (∀ k, lookupTag k m = lookupTag k m') → m = m' := by
  intro m
  induction m with
  | nil =>
    intro m' _ hwf' hext
    cases m' with
    | nil => rfl
    | cons kv0 rest =>
      obtain ⟨k0, v0⟩ := kv0
      have h1 := hext k0
      rw [lookupTag_cons_self] at h1
      simp [lookupTag] at h1
  | cons kv0 rest ih =>
    intro m' hwf hwf' hext
    obtain ⟨k0, v0⟩ := kv0
    cases m' with
    | nil =>
      have h1 := hext k0
      rw [lookupTag_cons_self] at h1
      simp [lookupTag] at h1
    | cons kv1 rest' =>
      obtain ⟨k1, v1⟩ := kv1
      rw [WFMap, List.pairwise_cons] at hwf hwf'
      obtain ⟨hlt, hrest⟩ := hwf
      obtain ⟨hlt', hrest'⟩ := hwf'
      -- the heads agree: otherwise the smaller head key is missing opposite
      have hk : k0 = k1 := by
        by_contra hne
        rcases Nat.lt_or_ge k0 k1 with h | h
        · have h1 := hext k0
          rw [lookupTag_cons_self, lookupTag_cons_ne k0 k1 v1 rest' hne,
            lookupTag_eq_none_of_forall k0 rest'
              (fun kv hkv => by have := hlt' kv hkv; omega)] at h1
          exact Option.noConfusion h1
        · have hlt2 : k1 < k0 := by omega
          have h1 := hext k1
          rw [lookupTag_cons_self, lookupTag_cons_ne k1 k0 v0 rest (by omega),
            lookupTag_eq_none_of_forall k1 rest
              (fun kv hkv => by have := hlt kv hkv; omega)] at h1
          exact Option.noConfusion h1.symm
      subst hk
      have hv : v0 = v1 := by
        have h1 := hext k0
        rw [lookupTag_cons_self, lookupTag_cons_self] at h1
        exact Option.some.inj h1
      subst hv
      congr 1
      apply ih rest' hrest hrest'
      intro k
      by_cases he : k = k0
      · subst he
        rw [lookupTag_eq_none_of_forall k rest
            (fun kv hkv => by have := hlt kv hkv; omega),
          lookupTag_eq_none_of_forall k rest'
            (fun kv hkv => by have := hlt' kv hkv; omega)]
      · have h1 := hext k
        rw [lookupTag_cons_ne k k0 v0 rest he,
          lookupTag_cons_ne k k0 v0 rest' he] at h1
        exact h1

/-! ## Discovery codec lemmas -/

theorem parseTagsGo_fuel :
    ∀ f1 f2 pkt acc, pkt.length ≤ f1 → pkt.length ≤ f2 →
      parseTagsGo f1 pkt acc = parseTagsGo f2 pkt acc := by
  intro f1
  induction f1 with
  | zero =>
    intro f2 pkt acc h1 _
    have : pkt = [] := List.length_eq_zero.mp (by omega)
    subst this
    cases f2 <;> rfl
  | succ f ih =>
    intro f2 pkt acc h1 h2
    match pkt, f2, h2 with
    | [], f2, _ => cases f2 <;> rfl
    | [a], g + 1, _ => rfl
    | [a, b], g + 1, _ => rfl
    | [a, b, c], g + 1, _ => rfl
    | a :: b :: c :: d :: rest, g + 1, hg =>
      simp only [parseTagsGo]
      split
      · rfl
      · split
        · rfl
        · apply ih
          · simp only [List.length_cons] at h1
            have := List.length_drop (read16 c d) rest
            omega
          · simp only [List.length_cons] at hg
            have := List.length_drop (read16 c d) rest
            omega

theorem parseTags_nil (acc : TagMap) : parseTags [] acc = some acc := rfl

theorem parseTags_cons (t0 t1 l0 l1 : Nat) (rest : List Nat) (acc : TagMap) :
    parseTags (t0 :: t1 :: l0 :: l1 :: rest) acc =
      if rest.length < read16 l0 l1 then none
      else if read16 t0 t1 = 0x0101 ∧ read16 l0 l1 ≠ 0 then none
      else parseTags (rest.drop (read16 l0 l1))
        (insertTag (read16 t0 t1) (rest.take (read16 l0 l1)) acc) := by
  rw [parseTags]
  simp only [List.length_cons, parseTagsGo]
  split
  · rfl
  · split
    · rfl
    · rw [parseTags]
      apply parseTagsGo_fuel
      · have := List.length_drop (read16 l0 l1) rest
        omega
      · exact le_refl _

theorem read16_be16 (n : Nat) (h : n < 65536) : read16 (n / 256 % 256) (n % 256) = n := by
  rw [read16]; omega

theorem encodeTag_cons (k : Nat) (v : List Nat) :
    encodeTag k v = k / 256 % 256 :: k % 256 :: v.length / 256 % 256 :: v.length % 256 :: v := by
  simp [encodeTag, be16]

theorem encodeTags_length : ∀ t : TagMap,
    (encodeTags t).length = (t.map fun kv => kv.2.length).sum + 4 * t.length := by
  intro t
  induction t with
  | nil => rfl
  | cons kv rest ih =>
    obtain ⟨k, v⟩ := kv
    simp [encodeTags, encodeTag, be16, ih]
    omega

/-- Parsing the encoding of a well-formed tag list appends it to the
accumulator: the TLVs are emitted in ascending key order, so each
`insertTag` lands at the end. -/
theorem parseTags_encodeTags :
    ∀ t acc : TagMap,
      WFMap t →
      (∀ kv ∈ acc, ∀ kv2 ∈ t, kv.1 < kv2.1) →
      (∀ kv ∈ t, kv.1 < 65536) →
      (∀ kv ∈ t, kv.2.length < 65536) →
      (∀ kv ∈ t, kv.1 = 0x0101 → kv.2 = []) →
      parseTags (encodeTags t) acc = some (acc ++ t) := by
  intro t
  induction t with
  | nil =>
    intro acc _ _ _ _ _
    simp [encodeTags, parseTags_nil]
  | cons kv t1 ih =>
    intro acc hwf hacc hkeys hvals hsn
    obtain ⟨k, v⟩ := kv
    rw [WFMap, List.pairwise_cons] at hwf
    obtain ⟨hhead, htail⟩ := hwf
    have hk : k < 65536 := hkeys (k, v) (List.mem_cons_self _ _)
    have hv : v.length < 65536 := hvals (k, v) (List.mem_cons_self _ _)
    rw [encodeTags, encodeTag_cons, List.cons_append, List.cons_append,
      List.cons_append, List.cons_append]
    rw [parseTags_cons]
    simp only [read16_be16 k hk, read16_be16 v.length hv]
    rw [if_neg (by simp)]
    rw [List.take_left, List.drop_left]
    have hsvc : ¬(k = 0x0101 ∧ v.length ≠ 0) := by
      rintro ⟨hk257, hlen⟩
      have hv0 : v = [] := hsn (k, v) (List.mem_cons_self _ _) hk257
      exact hlen (by simp [hv0])
    rw [if_neg hsvc]
    rw [insertTag_append k v acc
      (fun kv hkv => hacc kv hkv (k, v) (List.mem_cons_self _ _))]
    rw [ih (acc ++ [(k, v)]) htail ?hacc2
      (fun kv hkv => hkeys kv (List.mem_cons_of_mem _ hkv))
      (fun kv hkv => hvals kv (List.mem_cons_of_mem _ hkv))
      (fun kv hkv => hsn kv (List.mem_cons_of_mem _ hkv))]
    · simp
    case hacc2 =>
      intro kv hkv kv2 hkv2
      rcases List.mem_append.mp hkv with h | h
      · exact hacc kv h kv2 (List.mem_cons_of_mem _ hkv2)
      · simp at h
        rw [h]
        exact hhead kv2 hkv2

/-! ## Claim C1 -/

/-- C1 (amended): for every DiscoveryPacket whose code fits a uint8, whose
session id fits a uint16, whose tag keys each fit a uint16, whose tag values
each fit a uint16 length, whose total encoded payload fits a uint16, and
whose Service-Name tag (0x0101), if present, has an empty value,
`parseDiscoveryPacket (encodeDiscoveryPacket p)` succeeds and returns a
record equal to `p` (the tag map in canonical sorted form, `WFMap`). -/
theorem C1_discovery_parse_encode_roundtrip (p : discoveryPacket)
    (hwf : WFMap p.Tags)
    (hcode : p.Code < 256)
    (hsid : p.SessionID < 65536)
    (hkeys : ∀ kv ∈ p.Tags, kv.1 < 65536)
    (hvals : ∀ kv ∈ p.Tags, kv.2.length < 65536)
    (hsn : ∀ kv ∈ p.Tags, kv.1 = 0x0101 → kv.2 = [])
    (htotal : (p.Tags.map fun kv => kv.2.length).sum + 4 * p.Tags.length < 65536) :
    parseDiscoveryPacket (encodeDiscoveryPacket p) = some p := by
  obtain ⟨code, sid, tags⟩ := p
  simp only at hwf hcode hsid hkeys hvals hsn htotal
  rw [encodeDiscoveryPacket]
  simp only [be16, List.cons_append, List.nil_append]
  rw [parseDiscoveryPacket]
  rw [if_neg (by simp)]
  simp only [read16_be16 _ htotal]
  rw [if_neg (by rw [encodeTags_length]; omega)]
  rw [parseTags_encodeTags tags [] hwf (by simp) hkeys hvals hsn]
  simp only [List.nil_append, Option.map_some]
  have hc : code % 256 = code := Nat.mod_eq_of_lt hcode
  simp [hc, read16_be16 _ hsid]

/-- Witness for C1: the round-trip theorem applied to the PADO packet of
spec scenario 1 (code 7, empty Service-Name tag). -/
theorem C1_witness :
    parseDiscoveryPacket (encodeDiscoveryPacket ⟨7, 0, [(0x0101, [])]⟩) =
      some ⟨7, 0, [(0x0101, [])]⟩ :=
  C1_discovery_parse_encode_roundtrip ⟨7, 0, [(0x0101, [])]⟩
    (by decide) (by decide) (by decide) (by decide) (by decide) (by decide) (by decide)

/-- Counterexample to C1 as stated: the packet with the single tag key
0x10101 satisfies every hypothesis listed in the claim (code fits a uint8,
session id fits a uint16, the tag value is empty, no Service-Name tag 0x0101
is present), yet the key is truncated to 16 bits by the encoder, so the
round trip returns tag key 0x0101 instead of 0x10101. -/
theorem C1_counterexample :
    (7 : Nat) < 256 ∧ (0 : Nat) < 65536 ∧
    (∀ kv ∈ ([(0x10101, [])] : TagMap), kv.2.length < 65536 ∧ kv.1 ≠ 0x0101) ∧
    parseDiscoveryPacket (encodeDiscoveryPacket ⟨7, 0, [(0x10101, [])]⟩) =
      some ⟨7, 0, [(0x0101, [])]⟩ ∧
    (⟨7, 0, [(0x0101, [])]⟩ : discoveryPacket) ≠ ⟨7, 0, [(0x10101, [])]⟩ := by
  decide

/-! ## Claim C3 -/

/-- C3: `parseDiscoveryPacket` rejects every input shorter than 6 bytes,
every input whose first byte is not 0x11, and every input whose declared
payload length differs from the remaining byte count; the TLV loop rejects
a position with fewer than 4 bytes left, a TLV whose declared value length
exceeds the remaining bytes, and a Service-Name TLV (type 0x0101) with
non-zero length; and each of the seven scenario-4 byte sequences is
rejected. -/
theorem C3_discovery_parse_rejections :
    (∀ pkt : List Nat, pkt.length < 6 → parseDiscoveryPacket pkt = none) ∧
    (∀ (b0 : Nat) (rest : List Nat), b0 ≠ 0x11 →
      parseDiscoveryPacket (b0 :: rest) = none) ∧
    (∀ (b0 b1 b2 b3 b4 b5 : Nat) (rest : List Nat), read16 b4 b5 ≠ rest.length →
      parseDiscoveryPacket (b0 :: b1 :: b2 :: b3 :: b4 :: b5 :: rest) = none) ∧
    (∀ (pkt : List Nat) (acc : TagMap), 0 < pkt.length → pkt.length < 4 →
      parseTags pkt acc = none) ∧
    (∀ (t0 t1 l0 l1 : Nat) (rest : List Nat) (acc : TagMap),
      rest.length < read16 l0 l1 →
      parseTags (t0 :: t1 :: l0 :: l1 :: rest) acc = none) ∧
    (∀ (l0 l1 : Nat) (rest : List Nat) (acc : TagMap),
      read16 l0 l1 ≠ 0 → read16 l0 l1 ≤ rest.length →
      parseTags (1 :: 1 :: l0 :: l1 :: rest) acc = none) ∧
    (parseDiscoveryPacket [0x11] = none ∧
     parseDiscoveryPacket [0, 0, 0, 0, 0, 0, 0, 0, 0] = none ∧
     parseDiscoveryPacket [0x11, 0x07, 0, 0, 0, 2, 1, 1, 0, 0] = none ∧
     parseDiscoveryPacket [0x11, 0x07, 0, 0, 0xC8, 0xC8, 1, 1, 0, 0] = none ∧
     parseDiscoveryPacket [0x11, 0x07, 0, 0, 0, 5, 1, 1, 0, 0, 0] = none ∧
     parseDiscoveryPacket [0x11, 0x07, 0, 0, 0, 5, 1, 1, 0, 1, 0x41] = none ∧
     parseDiscoveryPacket [0x11, 0x07, 0, 0, 0, 4, 1, 1, 0xC8, 0xC8] = none) := by
  refine ⟨?_, ?_, ?_, ?_, ?_, ?_, by decide⟩
  · intro pkt h
    match pkt with
    | [] => rfl
    | [_] => rfl
    | [_, _] => rfl
    | [_, _, _] => rfl
    | [_, _, _, _] => rfl
    | [_, _, _, _, _] => rfl
    | _ :: _ :: _ :: _ :: _ :: _ :: rest =>
      simp only [List.length_cons] at h
      omega
  · intro b0 rest h
    match rest with
    | [] => rfl
    | [_] => rfl
    | [_, _] => rfl
    | [_, _, _] => rfl
    | [_, _, _, _] => rfl
    | b1 :: b2 :: b3 :: b4 :: b5 :: rest2 =>
      rw [parseDiscoveryPacket, if_pos h]
  · intro b0 b1 b2 b3 b4 b5 rest h
    rw [parseDiscoveryPacket]
    by_cases hv : b0 = 0x11
    · rw [if_neg (by simp [hv])]
      simp only [if_pos h]
    · rw [if_pos hv]
  · intro pkt acc hpos hlt
    match pkt with
    | [a] => rfl
    | [a, b] => rfl
    | [a, b, c] => rfl
  · intro t0 t1 l0 l1 rest acc h
    rw [parseTags_cons, if_pos h]
  · intro l0 l1 rest acc hne hle
    rw [parseTags_cons, if_neg (by omega)]
    rw [if_pos ⟨by decide, hne⟩]

/-- Witness for C3: the general rejection clauses applied to concrete
malformed inputs. -/
theorem C3_witness :
    parseDiscoveryPacket [0x11, 0x07, 0, 0] = none ∧
    parseDiscoveryPacket [0, 0x07, 0, 0, 0, 0, 0] = none ∧
    parseDiscoveryPacket [0x11, 0x07, 0, 0, 0, 9, 1, 1, 0, 0] = none ∧
    parseTags [0, 0, 0] [] = none ∧
    parseTags [1, 2, 0, 5, 0] [] = none ∧
    parseTags [1, 1, 0, 1, 0x41] [] = none := by
  refine ⟨C3_discovery_parse_rejections.1 _ (by decide),
    C3_discovery_parse_rejections.2.1 0 _ (by decide),
    C3_discovery_parse_rejections.2.2.1 0x11 0x07 0 0 0 9 _ (by decide),
    C3_discovery_parse_rejections.2.2.2.1 _ [] (by decide) (by decide),
    C3_discovery_parse_rejections.2.2.2.2.1 1 2 0 5 [0] [] (by decide),
    C3_discovery_parse_rejections.2.2.2.2.2.1 0 1 [0x41] [] (by decide) (by decide)⟩

/-! ## Claim C4 -/

/-- C4 (amended): the PADS read loop returns a session ID only for a frame
whose source address equals the chosen concentrator's (frames from any other
source are skipped and reading continues), and only when the frame parses as
a Discovery packet with code 0x65; the returned session id is the packet's
`session_id` field, which is not validated to be non-zero. -/
theorem C4_readPADS_accepts_only_concentrator_PADS :
    (∀ (conc : List Nat) (f : List Nat × List Nat) (rest : List (List Nat × List Nat)),
      f.1 ≠ conc → readPADS conc (f :: rest) = readPADS conc rest) ∧
    (∀ (conc : List Nat) (frames : List (List Nat × List Nat)) (sid : Nat),
      readPADS conc frames = some sid →
      ∃ f, f ∈ frames ∧ f.1 = conc ∧ parsePADS f.2 = some sid) ∧
    (∀ (buf : List Nat) (sid : Nat), parsePADS buf = some sid →
      ∃ pkt, parseDiscoveryPacket buf = some pkt ∧
        pkt.Code = 0x65 ∧ pkt.SessionID = sid) := by
  refine ⟨?_, ?_, ?_⟩
  · intro conc f rest h
    obtain ⟨src, buf⟩ := f
    rw [readPADS, if_pos h]
  · intro conc frames
    induction frames with
    | nil => intro sid h; simp [readPADS] at h
    | cons f rest ih =>
      intro sid h
      obtain ⟨src, buf⟩ := f
      rw [readPADS] at h
      by_cases hsrc : src ≠ conc
      · rw [if_pos hsrc] at h
        obtain ⟨f2, hmem, hf⟩ := ih sid h
        exact ⟨f2, List.mem_cons_of_mem _ hmem, hf⟩
      · rw [if_neg hsrc] at h
        push_neg at hsrc
        cases hp : parsePADS buf with
        | some sid2 =>
          rw [hp] at h
          injection h with h
          exact ⟨(src, buf), List.mem_cons_self _ _, hsrc, by rw [hp, h]⟩
        | none =>
          rw [hp] at h
          obtain ⟨f2, hmem, hf⟩ := ih sid h
          exact ⟨f2, List.mem_cons_of_mem _ hmem, hf⟩
  · intro buf sid h
    rw [parsePADS] at h
    cases hp : parseDiscoveryPacket buf with
    | none => rw [hp] at h; simp at h
    | some pkt =>
      rw [hp] at h
      rw [Option.some_bind] at h
      by_cases hc : pkt.Code ≠ 0x65
      · rw [if_pos hc] at h; exact absurd h (by simp)
      · rw [if_neg hc] at h
        push_neg at hc
        injection h with h
        exact ⟨pkt, rfl, hc, h⟩

/-- Witness for C4: the loop skips a frame from a foreign source address and
accepts the scenario-3 PADS (code 0x65, session id 0x4243) from the
concentrator. -/
theorem C4_witness :
    readPADS [1, 2, 3, 4, 5, 6]
        [([9, 9, 9, 9, 9, 9], [0x11, 0x65, 0x42, 0x43, 0, 4, 1, 1, 0, 0]),
         ([1, 2, 3, 4, 5, 6], [0x11, 0x65, 0x42, 0x43, 0, 4, 1, 1, 0, 0])] =
      readPADS [1, 2, 3, 4, 5, 6]
        [([1, 2, 3, 4, 5, 6], [0x11, 0x65, 0x42, 0x43, 0, 4, 1, 1, 0, 0])] ∧
    (∃ f, f ∈ [(([1, 2, 3, 4, 5, 6] : List Nat),
          [0x11, 0x65, 0x42, 0x43, 0, 4, 1, 1, 0, 0])] ∧
       f.1 = [1, 2, 3, 4, 5, 6] ∧ parsePADS f.2 = some 0x4243) ∧
    (∃ pkt, parseDiscoveryPacket [0x11, 0x65, 0x42, 0x43, 0, 4, 1, 1, 0, 0] = some pkt ∧
       pkt.Code = 0x65 ∧ pkt.SessionID = 0x4243) := by
  refine ⟨C4_readPADS_accepts_only_concentrator_PADS.1 _ _ _ (by decide),
    C4_readPADS_accepts_only_concentrator_PADS.2.1 _ _ _ (by decide),
    C4_readPADS_accepts_only_concentrator_PADS.2.2 _ _ (by decide)⟩

/-- Counterexample to C4 as stated: a PADS frame with session id zero from
the concentrator's address is accepted by the read loop (which returns 0);
the claim's condition that only non-zero session ids are accepted does not
hold of the code. -/
theorem C4_counterexample :
    parsePADS [0x11, 0x65, 0, 0, 0, 0] = some 0 ∧
    readPADS [0xaa, 0xbb, 0xcc, 0, 0, 1]
        [([0xaa, 0xbb, 0xcc, 0, 0, 1], [0x11, 0x65, 0, 0, 0, 0])] = some 0 := by
  decide

/-! ## Claim C7 -/

/-- C7: `Close` on a not-yet-closed `Conn` attempts all four teardown steps
(close PPP channel, close session fd, send PADT, close the raw discovery
port, in that order) regardless of individual failures, returns the first
non-nil error in that order, and marks the `Conn` closed; every subsequent
`Close` performs no teardown step and returns nil, even if the first `Close`
returned an error. -/
theorem C7_close_first_error_and_idempotent :
    ∀ (c : Conn) (env env2 : CloseEnv),
      (c.closed = false →
        (c.Close env).steps =
          [CloseStep.closeChannel, CloseStep.closeSessionFd,
           CloseStep.sendPADT, CloseStep.closeDiscovery] ∧
        (c.Close env).err =
          [env.channelErr, env.sessErr, env.padtErr, env.discErr].findSome? id ∧
        (c.Close env).conn.closed = true) ∧
      ((c.Close env).conn.Close env2).steps = [] ∧
      ((c.Close env).conn.Close env2).err = none := by
  intro c env env2
  by_cases hc : c.closed
  · refine ⟨fun h => by rw [h] at hc; exact absurd hc (by simp), ?_, ?_⟩
    · simp [Conn.Close, hc]
    · simp [Conn.Close, hc]
  · have hc2 : c.closed = false := by simpa using hc
    refine ⟨fun _ => ⟨?_, ?_, ?_⟩, ?_, ?_⟩
    · simp [Conn.Close, hc2]
    · cases henv : env.channelErr <;>
        cases henv2 : env.sessErr <;>
          cases henv3 : env.padtErr <;>
            cases henv4 : env.discErr <;>
              simp [Conn.Close, hc2, henv, henv2, henv3, henv4, List.findSome?]
    · simp [Conn.Close, hc2]
    · simp [Conn.Close, hc2]
    · simp [Conn.Close, hc2]

/-- Witness for C7: a first `Close` whose channel step succeeds but whose
session step fails returns the session error after attempting all four
steps; a second `Close` does nothing and returns nil. -/
theorem C7_witness :
    ((Conn.mk false).Close ⟨none, some 3, none, some 4⟩).err = some 3 ∧
    ((Conn.mk false).Close ⟨none, some 3, none, some 4⟩).steps =
      [CloseStep.closeChannel, CloseStep.closeSessionFd,
       CloseStep.sendPADT, CloseStep.closeDiscovery] ∧
    (((Conn.mk false).Close ⟨none, some 3, none, some 4⟩).conn.Close
        ⟨some 1, some 2, some 3, some 4⟩).steps = [] ∧
    (((Conn.mk false).Close ⟨none, some 3, none, some 4⟩).conn.Close
        ⟨some 1, some 2, some 3, some 4⟩).err = none := by
  have h := C7_close_first_error_and_idempotent ⟨false⟩ ⟨none, some 3, none, some 4⟩
    ⟨some 1, some 2, some 3, some 4⟩
  exact ⟨((h.1 rfl).2.1).trans (by decide), (h.1 rfl).1, h.2.1, h.2.2⟩

/-! ## Claim C8 -/

/-- C8: the spec requires the timeout helper to install the socket option
matching the requested direction, in particular `SO_SNDTIMEO` for the write
deadline that `sendSessionPacket` passes; the code instead passes the
constant `SO_RCVTIMEO` for both directions, so a write deadline arms the
receive timeout.  This theorem evaluates the helper at the claim's failing
input: invoked with `SO_SNDTIMEO` and a deadline 1.5 s in the future, it
issues a `SO_RCVTIMEO` request. -/
theorem C8_setTimeout_installs_rcvtimeo_for_send :
    setTimeout SO_SNDTIMEO false 1500000 =
      Except.ok ⟨SOL_SOCKET, SO_RCVTIMEO, 1, 500000⟩ ∧
    sendSessionPacketTimeoutOpt 1500000 = some SO_RCVTIMEO ∧
    SO_RCVTIMEO ≠ SO_SNDTIMEO := by
  refine ⟨rfl, rfl, by decide⟩

/-! ## Claim C9 -/

/-- C9: when the underlying socket write completes without an OS error but
writes a number of bytes different from (in particular, less than) the
packet length, `sendSessionPacket` returns a short-write error, and it
returns success only when the OS reported no error and exactly the packet
length was written. -/
theorem C9_sendSessionPacket_rejects_short_writes :
    (∀ (pkt : List Nat) (dz : Bool) (rm : Int) (n : Nat),
      (dz = true ∨ 0 ≤ rm) → n ≠ pkt.length →
      sendSessionPacket pkt dz rm n none = .error (.shortWrite n pkt.length)) ∧
    (∀ (pkt : List Nat) (dz : Bool) (rm : Int) (n m : Nat) (werr : Option Nat),
      sendSessionPacket pkt dz rm n werr = .ok m →
      werr = none ∧ n = pkt.length ∧ m = n) := by
  constructor
  · intro pkt dz rm n hdz hne
    cases dz with
    | true => simp [sendSessionPacket, sendCore, hne]
    | false =>
      have hrm : 0 ≤ rm := by
        rcases hdz with h | h
        · exact absurd h (by simp)
        · exact h
      rw [sendSessionPacket]
      rw [if_neg (by simp)]
      rw [setTimeout, if_neg (by simp), if_neg (by omega)]
      simp [sendCore, hne]
  · intro pkt dz rm n m werr h
    cases dz with
    | true =>
      rw [sendSessionPacket, if_pos rfl] at h
      cases werr with
      | some e => simp [sendCore] at h
      | none =>
        rw [sendCore] at h
        by_cases hn : n = pkt.length
        · rw [if_neg (by simp [hn])] at h
          injection h with h
          exact ⟨rfl, hn, h.symm⟩
        · rw [if_pos hn] at h
          exact absurd h (by simp)
    | false =>
      rw [sendSessionPacket, if_neg (by simp)] at h
      by_cases hrm : rm < 0
      · rw [setTimeout, if_neg (by simp), if_pos hrm] at h
        exact absurd h (by simp)
      · rw [setTimeout, if_neg (by simp), if_neg hrm] at h
        cases werr with
        | some e => simp [sendCore] at h
        | none =>
          rw [sendCore] at h
          by_cases hn : n = pkt.length
          · rw [if_neg (by simp [hn])] at h
            injection h with h
            exact ⟨rfl, hn, h.symm⟩
          · rw [if_pos hn] at h
            exact absurd h (by simp)

/-- Witness for C9: a 3-byte packet whose write reports 2 bytes yields the
short-write error (with a live 5 s deadline), and a full 3-byte write
succeeds. -/
theorem C9_witness :
    sendSessionPacket [1, 2, 3] false 5000000 2 none =
      .error (.shortWrite 2 3) ∧
    ((none : Option Nat) = none ∧ 3 = [1, 2, 3].length ∧ 3 = 3) := by
  exact ⟨C9_sendSessionPacket_rejects_short_writes.1 [1, 2, 3] false 5000000 2
      (Or.inr (by decide)) (by decide),
    C9_sendSessionPacket_rejects_short_writes.2 [1, 2, 3] true 0 3 3 none rfl⟩

/-! ## LCP codec lemmas -/

theorem parseLCPOptionsGo_fuel :
    ∀ f1 f2 b acc, b.length ≤ f1 → b.length ≤ f2 →
      parseLCPOptionsGo f1 b acc = parseLCPOptionsGo f2 b acc := by
  intro f1
  induction f1 with
  | zero =>
    intro f2 b acc h1 _
    have : b = [] := List.length_eq_zero.mp (by omega)
    subst this
    cases f2 <;> rfl
  | succ f ih =>
    intro f2 b acc h1 h2
    match b, f2, h2 with
    | [], f2, _ => cases f2 <;> rfl
    | [a], g + 1, _ => rfl
    | t :: l :: rest, g + 1, hg =>
      simp only [parseLCPOptionsGo]
      split
      · rfl
      · split
        · rfl
        · apply ih
          · simp only [List.length_cons] at h1
            have := List.length_drop (l - 2) rest
            omega
          · simp only [List.length_cons] at hg
            have := List.length_drop (l - 2) rest
            omega

theorem parseLCPOptions_nil (acc : TagMap) : parseLCPOptions [] acc = some acc := rfl

theorem parseLCPOptions_cons (t l : Nat) (rest : List Nat) (acc : TagMap) :
    parseLCPOptions (t :: l :: rest) acc =
      if l < 2 then none
      else if rest.length + 2 < l then none
      else parseLCPOptions (rest.drop (l - 2)) (insertTag t (rest.take (l - 2)) acc) := by
  rw [parseLCPOptions]
  simp only [List.length_cons, parseLCPOptionsGo]
  split
  · rfl
  · split
    · rfl
    · rw [parseLCPOptions]
      apply parseLCPOptionsGo_fuel
      · have := List.length_drop (l - 2) rest
        omega
      · exact le_refl _

/-- Consuming one well-formed option TLV from the stream. -/
theorem parseLCPOptions_opt_step (t : Nat) (v rest : List Nat) (acc : TagMap)
    (hlen : v.length ≤ 253) :
    parseLCPOptions (t :: (v.length + 2) % 256 :: v ++ rest) acc =
      parseLCPOptions rest (insertTag t v acc) := by
  have hm : (v.length + 2) % 256 = v.length + 2 := Nat.mod_eq_of_lt (by omega)
  rw [hm, List.cons_append, List.cons_append]
  rw [parseLCPOptions_cons t (v.length + 2) (v ++ rest) acc]
  rw [if_neg (by omega)]
  rw [if_neg (by simp only [List.length_append]; omega)]
  rw [Nat.add_sub_cancel, List.take_left, List.drop_left]

/-- Consuming the MRU option as emitted by `Bytes` (type 1, length 4). -/
theorem parseLCPOptions_mru_step (mru : Nat) (rest : List Nat) (acc : TagMap) :
    parseLCPOptions (1 :: 4 :: be16 mru ++ rest) acc =
      parseLCPOptions rest (insertTag 1 (be16 mru) acc) := by
  have h := parseLCPOptions_opt_step 1 (be16 mru) rest acc (by simp [be16])
  simpa [be16] using h

/-- Consuming the AuthProto option as emitted by `Bytes` (type 3, length 4
without, 5 with, the CHAP algorithm byte). -/
theorem parseLCPOptions_auth_step (ap chap : Nat) (rest : List Nat) (acc : TagMap) :
    parseLCPOptions
        (3 :: (if chap ≠ 0 then 5 else 4) :: be16 ap
          ++ (if chap ≠ 0 then [chap % 256] else []) ++ rest) acc =
      parseLCPOptions rest
        (insertTag 3 (be16 ap ++ (if chap ≠ 0 then [chap % 256] else [])) acc) := by
  by_cases hc : chap ≠ 0
  · simp only [if_pos hc]
    have h := parseLCPOptions_opt_step 3 (be16 ap ++ [chap % 256]) rest acc (by simp [be16])
    simpa [be16] using h
  · simp only [if_neg hc]
    have h := parseLCPOptions_opt_step 3 (be16 ap) rest acc (by simp [be16])
    simpa [be16] using h

/-- Consuming the Magic option as emitted by `Bytes` (type 5, length 6). -/
theorem parseLCPOptions_magic_step (g : Nat) (rest : List Nat) (acc : TagMap) :
    parseLCPOptions (5 :: 6 :: be32 g ++ rest) acc =
      parseLCPOptions rest (insertTag 5 (be32 g) acc) := by
  have h := parseLCPOptions_opt_step 5 (be32 g) rest acc (by simp [be32])
  simpa [be32] using h

/-- Parsing the unknown-option bytes folds the options into the map. -/
theorem parseLCPOptions_unknownOptsBytes :
    ∀ (L : TagMap) (acc : TagMap),
      (∀ kv ∈ L, kv.1 < 256) → (∀ kv ∈ L, kv.2.length ≤ 253) →
      parseLCPOptions (unknownOptsBytes L) acc =
        some (L.foldl (fun m kv => insertTag kv.1 kv.2 m) acc) := by
  intro L
  induction L with
  | nil => intro acc _ _; simp [unknownOptsBytes, parseLCPOptions_nil]
  | cons kv t ih =>
    intro acc hkeys hlens
    obtain ⟨k, v⟩ := kv
    have hk : k < 256 := hkeys (k, v) (List.mem_cons_self _ _)
    have hv : v.length ≤ 253 := hlens (k, v) (List.mem_cons_self _ _)
    rw [unknownOptsBytes, Nat.mod_eq_of_lt hk, parseLCPOptions_opt_step k v _ acc hv]
    rw [ih _ (fun kv h => hkeys kv (List.mem_cons_of_mem _ h))
      (fun kv h => hlens kv (List.mem_cons_of_mem _ h))]
    rfl

theorem unknownOptsBytes_length :
    ∀ L : TagMap, (unknownOptsBytes L).length =
      (L.map fun kv => 2 + kv.2.length).sum := by
  intro L
  induction L with
  | nil => rfl
  | cons kv t ih =>
    obtain ⟨k, v⟩ := kv
    simp [unknownOptsBytes, ih]
    omega

/-! Folding `insertTag` over a list of options: lookups and well-formedness. -/

theorem lookupTag_foldl_not_mem (k : Nat) :
    ∀ (L : TagMap) (acc : TagMap), (∀ kv ∈ L, kv.1 ≠ k) →
      lookupTag k (L.foldl (fun m kv => insertTag kv.1 kv.2 m) acc) =
        lookupTag k acc := by
  intro L
  induction L with
  | nil => intro acc _; rfl
  | cons kv t ih =>
    intro acc h
    obtain ⟨k0, v0⟩ := kv
    have hk0 : k0 ≠ k := h (k0, v0) (List.mem_cons_self _ _)
    rw [List.foldl_cons]
    rw [ih _ (fun kv hkv => h kv (List.mem_cons_of_mem _ hkv))]
    exact lookupTag_insert_ne k k0 v0 (fun he => hk0 he.symm) acc

theorem lookupTag_foldl_mem (k : Nat) (v : List Nat) :
    ∀ (L : TagMap) (acc : TagMap),
      List.Pairwise (fun a b => a.1 ≠ b.1) L → (k, v) ∈ L →
      lookupTag k (L.foldl (fun m kv => insertTag kv.1 kv.2 m) acc) = some v := by
  intro L
  induction L with
  | nil => intro acc _ h; simp at h
  | cons kv t ih =>
    intro acc hpw hmem
    obtain ⟨k0, v0⟩ := kv
    rw [List.pairwise_cons] at hpw
    obtain ⟨hne, hpw2⟩ := hpw
    rw [List.foldl_cons]
    rcases List.mem_cons.mp hmem with h | h
    · injection h with h1 h2
      subst h1; subst h2
      rw [lookupTag_foldl_not_mem k t _ (fun kv hkv h2 => hne kv hkv h2.symm)]
      exact lookupTag_insert_self k v acc
    · exact ih _ hpw2 h

theorem WFMap_foldl_insert :
    ∀ (L : TagMap) (acc : TagMap), WFMap acc →
      WFMap (L.foldl (fun m kv => insertTag kv.1 kv.2 m) acc) := by
  intro L
  induction L with
  | nil => intro acc h; exact h
  | cons kv t ih =>
    intro acc h
    rw [List.foldl_cons]
    exact ih _ (WFMap_insert kv.1 kv.2 acc h)

theorem lookupTag_none_imp (k : Nat) :
    ∀ m : TagMap, lookupTag k m = none → ∀ kv ∈ m, kv.1 ≠ k := by
  intro m
  induction m with
  | nil => intro _ kv h; simp at h
  | cons kv0 t ih =>
    intro h kv hkv
    obtain ⟨k0, v0⟩ := kv0
    by_cases he : k = k0
    · rw [he, lookupTag_cons_self] at h
      exact absurd h (by simp)
    · rw [lookupTag_cons_ne k k0 v0 t he] at h
      rcases List.mem_cons.mp hkv with h2 | h2
      · subst h2; simpa using fun hx => he hx.symm
      · exact ih h kv h2

theorem lookupTag_of_mem_WF (k : Nat) (v : List Nat) :
    ∀ m : TagMap, WFMap m → (k, v) ∈ m → lookupTag k m = some v := by
  intro m
  induction m with
  | nil => intro _ h; simp at h
  | cons kv0 t ih =>
    intro hwf hmem
    obtain ⟨k0, v0⟩ := kv0
    rw [WFMap, List.pairwise_cons] at hwf
    obtain ⟨hlt, hwf2⟩ := hwf
    rcases List.mem_cons.mp hmem with h | h
    · injection h with h1 h2
      subst h1; subst h2
      exact lookupTag_cons_self k v t
    · have hne : k ≠ k0 := by
        have := hlt (k, v) h
        simp at this
        omega
      rw [lookupTag_cons_ne k k0 v0 t hne]
      exact ih hwf2 h

/-! ## Configure-family round-trip machinery -/

theorem parseLCPOptions_mru_chunk (mru : Nat) (rest : List Nat) (acc : TagMap) :
    parseLCPOptions ((if mru ≠ 0 then 1 :: 4 :: be16 mru else []) ++ rest) acc =
      parseLCPOptions rest (if mru ≠ 0 then insertTag 1 (be16 mru) acc else acc) := by
  by_cases hm : mru ≠ 0
  · rw [if_pos hm, if_pos hm, parseLCPOptions_mru_step]
  · rw [if_neg hm, if_neg hm, List.nil_append]

theorem parseLCPOptions_auth_chunk (ap chap : Nat) (rest : List Nat) (acc : TagMap) :
    parseLCPOptions
        ((if ap ≠ 0 then
            3 :: (if chap ≠ 0 then 5 else 4) :: be16 ap
              ++ (if chap ≠ 0 then [chap % 256] else [])
          else []) ++ rest) acc =
      parseLCPOptions rest
        (if ap ≠ 0 then
          insertTag 3 (be16 ap ++ (if chap ≠ 0 then [chap % 256] else [])) acc
        else acc) := by
  by_cases ha : ap ≠ 0
  · rw [if_pos ha, if_pos ha, parseLCPOptions_auth_step]
  · rw [if_neg ha, if_neg ha, List.nil_append]

theorem parseLCPOptions_magic_chunk (g : Nat) (rest : List Nat) (acc : TagMap) :
    parseLCPOptions ((if g ≠ 0 then 5 :: 6 :: be32 g else []) ++ rest) acc =
      parseLCPOptions rest (if g ≠ 0 then insertTag 5 (be32 g) acc else acc) := by
  by_cases hg : g ≠ 0
  · rw [if_pos hg, if_pos hg, parseLCPOptions_magic_step]
  · rw [if_neg hg, if_neg hg, List.nil_append]

/-- Parsing the whole configure option stream of `Bytes` yields the
recognized options plus the folded-in unknown options. -/
theorem parseLCPOptions_configOptsBytes (p : Packet)
    (hukeys : ∀ kv ∈ p.UnknownOptions, kv.1 < 256)
    (hulens : ∀ kv ∈ p.UnknownOptions, kv.2.length ≤ 253) :
    parseLCPOptions (configOptsBytes p) [] =
      some (p.UnknownOptions.foldl (fun m kv => insertTag kv.1 kv.2 m) (recogAcc p)) := by
  rw [configOptsBytes, List.append_assoc, List.append_assoc,
    parseLCPOptions_mru_chunk, parseLCPOptions_auth_chunk,
    parseLCPOptions_magic_chunk,
    parseLCPOptions_unknownOptsBytes p.UnknownOptions _ hukeys hulens]
  rfl

theorem lookupTag_recogAcc_1 (p : Packet) :
    lookupTag 1 (recogAcc p) = if p.MRU ≠ 0 then some (be16 p.MRU) else none := by
  have h15 : ∀ v m, lookupTag 1 (insertTag 5 v m) = lookupTag 1 m :=
    fun v m => lookupTag_insert_ne 1 5 v (by decide) m
  have h13 : ∀ v m, lookupTag 1 (insertTag 3 v m) = lookupTag 1 m :=
    fun v m => lookupTag_insert_ne 1 3 v (by decide) m
  rw [recogAcc]
  by_cases hg : p.Magic ≠ 0 <;> by_cases ha : p.AuthProto ≠ 0 <;>
    by_cases hm : p.MRU ≠ 0 <;>
      simp [hg, ha, hm, h15, h13, lookupTag_insert_self, lookupTag]

theorem lookupTag_recogAcc_3 (p : Packet) :
    lookupTag 3 (recogAcc p) =
      if p.AuthProto ≠ 0 then
        some (be16 p.AuthProto
          ++ (if p.CHAPAlgorithm ≠ 0 then [p.CHAPAlgorithm % 256] else []))
      else none := by
  have h35 : ∀ v m, lookupTag 3 (insertTag 5 v m) = lookupTag 3 m :=
    fun v m => lookupTag_insert_ne 3 5 v (by decide) m
  have h31 : ∀ v m, lookupTag 3 (insertTag 1 v m) = lookupTag 3 m :=
    fun v m => lookupTag_insert_ne 3 1 v (by decide) m
  rw [recogAcc]
  by_cases hg : p.Magic ≠ 0 <;> by_cases ha : p.AuthProto ≠ 0 <;>
    by_cases hm : p.MRU ≠ 0 <;>
      simp [hg, ha, hm, h35, h31, lookupTag_insert_self, lookupTag]

theorem lookupTag_recogAcc_5 (p : Packet) :
    lookupTag 5 (recogAcc p) = if p.Magic ≠ 0 then some (be32 p.Magic) else none := by
  have h53 : ∀ v m, lookupTag 5 (insertTag 3 v m) = lookupTag 5 m :=
    fun v m => lookupTag_insert_ne 5 3 v (by decide) m
  have h51 : ∀ v m, lookupTag 5 (insertTag 1 v m) = lookupTag 5 m :=
    fun v m => lookupTag_insert_ne 5 1 v (by decide) m
  rw [recogAcc]
  by_cases hg : p.Magic ≠ 0 <;> by_cases ha : p.AuthProto ≠ 0 <;>
    by_cases hm : p.MRU ≠ 0 <;>
      simp [hg, ha, hm, h53, h51, lookupTag_insert_self, lookupTag]

theorem lookupTag_recogAcc_other (p : Packet) (k : Nat)
    (h1 : k ≠ 1) (h3 : k ≠ 3) (h5 : k ≠ 5) :
    lookupTag k (recogAcc p) = none := by
  rw [recogAcc]
  by_cases hg : p.Magic ≠ 0 <;> by_cases ha : p.AuthProto ≠ 0 <;>
    by_cases hm : p.MRU ≠ 0 <;>
      simp [hg, ha, hm, h1, h3, h5, lookupTag_insert_ne _ _ _ h1,
        lookupTag_insert_ne _ _ _ h3, lookupTag_insert_ne _ _ _ h5, lookupTag]

theorem WFMap_ite_insert (c : Prop) [Decidable c] (k : Nat) (v : List Nat) (m : TagMap)
    (h : WFMap m) : WFMap (if c then insertTag k v m else m) := by
  split
  · exact WFMap_insert k v m h
  · exact h

theorem WFMap_recogAcc (p : Packet) : WFMap (recogAcc p) := by
  rw [recogAcc]
  apply WFMap_ite_insert
  apply WFMap_ite_insert
  apply WFMap_ite_insert
  simp [WFMap]

/-- Decoding the emitted MRU option value. -/
theorem parseMRUOpt_be16 (n : Nat) (h : n < 65536) : parseMRUOpt (be16 n) = some n := by
  rw [be16, parseMRUOpt]
  exact congrArg some (read16_be16 n h)

/-- Decoding the emitted Magic option value. -/
theorem read32_be32 (n : Nat) (h : n < 4294967296) :
    read32 (n / 16777216 % 256) (n / 65536 % 256) (n / 256 % 256) (n % 256) = n := by
  rw [read32]; omega

theorem parseMagicOpt_be32 (n : Nat) (h : n < 4294967296) :
    parseMagicOpt (be32 n) = some n := by
  rw [be32, parseMagicOpt]
  exact congrArg some (read32_be32 n h)

/-- Decoding the emitted AuthProto option value, CHAP form. -/
theorem parseAuthProtoOpt_chap (chap : Nat) (hlt : chap < 256) :
    parseAuthProtoOpt (be16 0xc223 ++ [chap % 256]) = some (0xc223, chap) := by
  have : chap % 256 = chap := Nat.mod_eq_of_lt hlt
  simp [be16, parseAuthProtoOpt, read16, this]

/-- Decoding the emitted AuthProto option value, non-CHAP form. -/
theorem parseAuthProtoOpt_nochap (ap : Nat) (hne : ap ≠ 0xc223) (hlt : ap < 65536) :
    parseAuthProtoOpt (be16 ap) = some (ap, 0) := by
  rw [be16, parseAuthProtoOpt]
  rw [show read16 (ap / 256 % 256) (ap % 256) = ap from read16_be16 ap hlt]
  rw [if_neg hne]

/-- Deleting the recognized keys from the parsed option map recovers exactly
the unknown options. -/
theorem erase_recognized_eq_unknown (p : Packet)
    (hwfU : WFMap p.UnknownOptions)
    (hU : ∀ kv ∈ p.UnknownOptions, kv.1 ≠ 1 ∧ kv.1 ≠ 3 ∧ kv.1 ≠ 5) :
    eraseKey 1 (eraseKey 3 (eraseKey 5
        (p.UnknownOptions.foldl (fun m kv => insertTag kv.1 kv.2 m) (recogAcc p)))) =
      p.UnknownOptions := by
  set M := p.UnknownOptions.foldl (fun m kv => insertTag kv.1 kv.2 m) (recogAcc p) with hM
  have hwfM : WFMap M := WFMap_foldl_insert _ _ (WFMap_recogAcc p)
  apply WFMap_ext
  · exact WFMap_eraseKey _ _ (WFMap_eraseKey _ _ (WFMap_eraseKey _ _ hwfM))
  · exact hwfU
  intro k
  by_cases h1 : k = 1
  · subst h1
    rw [lookupTag_eraseKey_self,
      lookupTag_eq_none_of_forall _ _ (fun kv hkv => (hU kv hkv).1)]
  · by_cases h3 : k = 3
    · subst h3
      rw [lookupTag_eraseKey_ne 3 1 (by decide), lookupTag_eraseKey_self,
        lookupTag_eq_none_of_forall _ _ (fun kv hkv => (hU kv hkv).2.1)]
    · by_cases h5 : k = 5
      · subst h5
        rw [lookupTag_eraseKey_ne 5 1 (by decide), lookupTag_eraseKey_ne 5 3 (by decide),
          lookupTag_eraseKey_self,
          lookupTag_eq_none_of_forall _ _ (fun kv hkv => (hU kv hkv).2.2)]
      · rw [lookupTag_eraseKey_ne k 1 h1, lookupTag_eraseKey_ne k 3 h3,
          lookupTag_eraseKey_ne k 5 h5]
        cases hku : lookupTag k p.UnknownOptions with
        | some v =>
          rw [hM, lookupTag_foldl_mem k v _ _
            (hwfU.imp fun hab => by omega) (lookupTag_mem k v _ hku)]
        | none =>
          rw [hM, lookupTag_foldl_not_mem k _ _ (lookupTag_none_imp k _ hku),
            lookupTag_recogAcc_other p k h1 h3 h5]

/-- Parsing the configure-family payload written by `Bytes` recovers the
packet, for internally consistent field values. -/
theorem config_payload_roundtrip (p : Packet)
    (hmru : p.MRU < 65536) (hap : p.AuthProto < 65536) (hchap : p.CHAPAlgorithm < 256)
    (hmag : p.Magic < 4294967296)
    (hiff : p.CHAPAlgorithm ≠ 0 ↔ p.AuthProto = 0xc223)
    (hwfU : WFMap p.UnknownOptions)
    (hU : ∀ kv ∈ p.UnknownOptions, kv.1 < 256 ∧ kv.1 ≠ 1 ∧ kv.1 ≠ 3 ∧ kv.1 ≠ 5 ∧
      kv.2.length ≤ 253)
    (hdata : p.Data = []) (hrp : p.RejectedProtocol = 0) :
    (parseLCPOptions (configOptsBytes p) []).bind
      (applyConfigOptions (emptyPacket p.Code p.ID)) = some p := by
  rw [parseLCPOptions_configOptsBytes p (fun kv h => (hU kv h).1)
    (fun kv h => (hU kv h).2.2.2.2), Option.some_bind]
  set M := p.UnknownOptions.foldl (fun m kv => insertTag kv.1 kv.2 m) (recogAcc p) with hM
  have hUne : ∀ kv ∈ p.UnknownOptions, kv.1 ≠ 1 ∧ kv.1 ≠ 3 ∧ kv.1 ≠ 5 :=
    fun kv h => ⟨(hU kv h).2.1, (hU kv h).2.2.1, (hU kv h).2.2.2.1⟩
  have hl1 : lookupTag 1 M = if p.MRU ≠ 0 then some (be16 p.MRU) else none := by
    rw [hM, lookupTag_foldl_not_mem 1 _ _ (fun kv h => (hUne kv h).1),
      lookupTag_recogAcc_1]
  have hl3 : lookupTag 3 M =
      if p.AuthProto ≠ 0 then
        some (be16 p.AuthProto
          ++ (if p.CHAPAlgorithm ≠ 0 then [p.CHAPAlgorithm % 256] else []))
      else none := by
    rw [hM, lookupTag_foldl_not_mem 3 _ _ (fun kv h => (hUne kv h).2.1),
      lookupTag_recogAcc_3]
  have hl5 : lookupTag 5 M = if p.Magic ≠ 0 then some (be32 p.Magic) else none := by
    rw [hM, lookupTag_foldl_not_mem 5 _ _ (fun kv h => (hUne kv h).2.2),
      lookupTag_recogAcc_5]
  have hx1 : (match lookupTag 1 M with
      | none => some 0
      | some v => parseMRUOpt v) = some p.MRU := by
    rw [hl1]
    by_cases hm : p.MRU ≠ 0
    · rw [if_pos hm]
      exact parseMRUOpt_be16 p.MRU hmru
    · rw [if_neg hm]
      push_neg at hm
      rw [hm]
  have hx3 : (match lookupTag 3 M with
      | none => some (0, 0)
      | some v => parseAuthProtoOpt v) = some (p.AuthProto, p.CHAPAlgorithm) := by
    rw [hl3]
    by_cases ha : p.AuthProto ≠ 0
    · rw [if_pos ha]
      by_cases hc : p.CHAPAlgorithm ≠ 0
      · rw [if_pos hc]
        have hap223 : p.AuthProto = 0xc223 := hiff.mp hc
        rw [hap223]
        exact parseAuthProtoOpt_chap p.CHAPAlgorithm hchap
      · rw [if_neg hc]
        push_neg at hc
        rw [List.append_nil]
        show parseAuthProtoOpt (be16 p.AuthProto) = some (p.AuthProto, p.CHAPAlgorithm)
        rw [parseAuthProtoOpt_nochap p.AuthProto
          (fun he => absurd hc (hiff.mpr he)) hap, hc]
    · rw [if_neg ha]
      push_neg at ha
      have hc : p.CHAPAlgorithm = 0 := by
        by_contra hcne
        exact absurd (hiff.mp hcne) (by rw [ha]; decide)
      rw [ha, hc]
  have hx5 : (match lookupTag 5 M with
      | none => some 0
      | some v => parseMagicOpt v) = some p.Magic := by
    rw [hl5]
    by_cases hg : p.Magic ≠ 0
    · rw [if_pos hg]
      exact parseMagicOpt_be32 p.Magic hmag
    · rw [if_neg hg]
      push_neg at hg
      rw [hg]
  rw [applyConfigOptions, hx1, hx3, hx5, Option.some_bind, Option.some_bind,
    Option.some_bind]
  rw [hM, erase_recognized_eq_unknown p hwfU hUne]
  obtain ⟨code, id, mru, ap, chap, uo, data, rp, magic⟩ := p
  simp only at hdata hrp
  simp [emptyPacket, hdata, hrp]

/-- Unfolding `Parse` on an encoding whose LCP length fits: the declared
length is exact, so the dispatch runs on precisely the emitted body. -/
theorem Parse_Bytes_unfold (p : Packet) (hcode : p.Code < 256) (hid : p.ID < 256)
    (hfit : 4 + (lcpBody p).length < 65536) :
    Parse p.Bytes = lcpDispatch p.Code p.ID (lcpBody p) := by
  rw [Packet.Bytes, Parse]
  rw [if_neg (by decide)]
  have e1 : read16 ((4 + (lcpBody p).length) % 65536 / 256)
      ((4 + (lcpBody p).length) % 65536 % 256) = 4 + (lcpBody p).length := by
    rw [read16]; omega
  rw [e1]
  rw [if_neg (by omega), if_neg (by omega)]
  rw [Nat.add_sub_cancel_left, List.take_length]
  rw [Nat.mod_eq_of_lt hcode, Nat.mod_eq_of_lt hid]

/-! ## Claim C2 -/

/-- C2 (amended): for every LCP `Packet` whose field set is internally
consistent — code in 1..11, every field within its wire width, each
code-specific field zero/empty outside its code family, a CHAP algorithm
byte non-zero exactly when AuthProto = 0xc223, unknown options a
uint8-keyed map avoiding types 1/3/5 with values of at most 253 bytes, and
the encoded length fitting a uint16 — `Parse (p.Bytes)` succeeds and
returns a `Packet` equal to `p`; and the concrete scenario-5 vector
round-trips: `Bytes` of the stated packet yields exactly the 24-byte input,
which parses back to it. -/
theorem C2_lcp_parse_bytes_roundtrip :
    (∀ p : Packet, consistent p → Parse p.Bytes = some p) ∧
    Packet.Bytes lcpVecPacket = lcpVec ∧
    Parse lcpVec = some lcpVecPacket := by
  refine ⟨?_, by decide, by decide⟩
  intro p hc
  obtain ⟨hc1, hc11, hid, hfit, hconf, h57, h8, h911⟩ := hc
  have hcode : p.Code < 256 := by omega
  rw [Parse_Bytes_unfold p hcode hid hfit]
  by_cases hg1 : p.Code = 1 ∨ p.Code = 2 ∨ p.Code = 3 ∨ p.Code = 4
  · rw [lcpDispatch, if_pos hg1, lcpBody, if_pos hg1]
    obtain ⟨hmru, hap, hchap, hmag, hiff, hwfU, hU, hdata, hrp⟩ := hconf (by omega)
    exact config_payload_roundtrip p hmru hap hchap hmag hiff hwfU hU hdata hrp
  · by_cases hg8 : p.Code = 8
    · obtain ⟨hmru, hap, hchap, hmag, huo, hrpl⟩ := h8 hg8
      rw [lcpDispatch, if_neg hg1, if_pos hg8, lcpBody, if_neg hg1, if_pos hg8]
      rw [be16, List.cons_append, List.cons_append, List.nil_append,
        parseProtoRejectPayload]
      rw [show read16 (p.RejectedProtocol / 256 % 256) (p.RejectedProtocol % 256) =
        p.RejectedProtocol from read16_be16 _ hrpl]
      obtain ⟨code, id, mru, ap, chap, uo, data, rp, magic⟩ := p
      simp only at hmru hap hchap hmag huo hg8
      subst hmru; subst hap; subst hchap; subst hmag; subst huo; subst hg8
      simp [emptyPacket]
    · by_cases hg57 : p.Code = 5 ∨ p.Code = 6 ∨ p.Code = 7
      · obtain ⟨hmru, hap, hchap, hmag, huo, hrp⟩ := h57 (by omega) (by omega)
        rw [lcpDispatch, if_neg hg1, if_neg hg8, if_pos hg57,
          lcpBody, if_neg hg1, if_neg hg8, if_pos hg57]
        obtain ⟨code, id, mru, ap, chap, uo, data, rp, magic⟩ := p
        simp only at hmru hap hchap hmag huo hrp
        subst hmru; subst hap; subst hchap; subst hmag; subst huo; subst hrp
        simp [emptyPacket]
      · have hg911 : p.Code = 9 ∨ p.Code = 10 ∨ p.Code = 11 := by omega
        obtain ⟨hmru, hap, hchap, hmag, huo, hrp⟩ := h911 (by omega)
        rw [lcpDispatch, if_neg hg1, if_neg hg8, if_neg hg57, if_pos hg911,
          lcpBody, if_neg hg1, if_neg hg8, if_neg hg57, if_pos hg911]
        rw [be32, List.cons_append, List.cons_append, List.cons_append,
          List.cons_append, List.nil_append, parseEchoPayload]
        rw [show read32 (p.Magic / 16777216 % 256) (p.Magic / 65536 % 256)
          (p.Magic / 256 % 256) (p.Magic % 256) = p.Magic from read32_be32 _ hmag]
        obtain ⟨code, id, mru, ap, chap, uo, data, rp, magic⟩ := p
        simp only at hmru hap hchap huo hrp
        subst hmru; subst hap; subst hchap; subst huo; subst hrp
        simp [emptyPacket]

/-- Witness for C2: the round-trip theorem applied to the scenario-5
Configure-Request packet, whose consistency is decided concretely. -/
theorem C2_witness : Parse (Packet.Bytes lcpVecPacket) = some lcpVecPacket :=
  C2_lcp_parse_bytes_roundtrip.1 lcpVecPacket (by decide)

/-- Counterexample to C2 as stated: the packet with code 5
(Terminate-Request) and MRU = 1500 satisfies every condition the claim
lists (code in 1..11, CHAPAlgorithm zero, no unknown options, `Data` and
`RejectedProtocol` at their zero values), but `Bytes` ignores MRU for
non-configure codes, so the round trip returns the packet with MRU = 0,
which differs from the original. -/
theorem C2_counterexample :
    Parse (Packet.Bytes { emptyPacket 5 1 with MRU := 1500 }) =
      some (emptyPacket 5 1) ∧
    emptyPacket 5 1 ≠ { emptyPacket 5 1 with MRU := 1500 } := by
  decide

/-- A successful `applyConfigOptions` always stores the recognized-key-free
remainder of the option map in `UnknownOptions`. -/
theorem applyConfigOptions_unknown (pkt0 : Packet) (opts : TagMap) (p : Packet)
    (h : applyConfigOptions pkt0 opts = some p) :
    p.UnknownOptions = eraseKey 1 (eraseKey 3 (eraseKey 5 opts)) := by
  rw [applyConfigOptions] at h
  cases hm1 : (match lookupTag 1 opts with
      | none => some 0
      | some v => parseMRUOpt v) with
  | none => rw [hm1] at h; exact absurd h (by simp)
  | some mru =>
    rw [hm1, Option.some_bind] at h
    cases hm2 : (match lookupTag 3 opts with
        | none => some (0, 0)
        | some v => parseAuthProtoOpt v) with
    | none => rw [hm2] at h; exact absurd h (by simp)
    | some ap =>
      rw [hm2, Option.some_bind] at h
      cases hm3 : (match lookupTag 5 opts with
          | none => some 0
          | some v => parseMagicOpt v) with
      | none => rw [hm3] at h; exact absurd h (by simp)
      | some magic =>
        rw [hm3, Option.some_bind] at h
        injection h with h
        rw [← h]

/-! ## Claim C10 -/

/-- C10: whenever `Parse` accepts an input with a configure-family code
(1–4), the returned packet's `UnknownOptions` map contains no entry for the
recognized option types 1 (MRU), 3 (AuthProto) or 5 (Magic): the recognized
options are deleted from the map and reported only through the dedicated
fields. -/
theorem C10_unknown_options_free_of_recognized :
    ∀ (b : List Nat) (p : Packet), Parse b = some p →
      1 ≤ p.Code → p.Code ≤ 4 →
      lookupTag 1 p.UnknownOptions = none ∧
      lookupTag 3 p.UnknownOptions = none ∧
      lookupTag 5 p.UnknownOptions = none := by
  have hempty : ∀ (b : List Nat) (p : Packet), Parse b = some p →
      lookupTag 1 p.UnknownOptions = none ∧
      lookupTag 3 p.UnknownOptions = none ∧
      lookupTag 5 p.UnknownOptions = none := by
    intro b p h
    match b with
    | [] => exact absurd h (by simp [Parse])
    | [_] => exact absurd h (by simp [Parse])
    | [_, _] => exact absurd h (by simp [Parse])
    | [_, _, _] => exact absurd h (by simp [Parse])
    | [_, _, _, _] => exact absurd h (by simp [Parse])
    | [_, _, _, _, _] => exact absurd h (by simp [Parse])
    | p0 :: p1 :: b0 :: b1 :: b2 :: b3 :: rest =>
      rw [Parse] at h
      split_ifs at h with hpr h4 hov
      rw [lcpDispatch] at h
      split_ifs at h with hc1 hc8 hc57 hc911
      · cases hop : parseLCPOptions (rest.take (read16 b2 b3 - 4)) [] with
        | none => rw [hop] at h; exact absurd h (by simp)
        | some opts =>
          rw [hop, Option.some_bind] at h
          rw [applyConfigOptions_unknown _ _ _ h]
          refine ⟨lookupTag_eraseKey_self 1 _, ?_, ?_⟩
          · rw [lookupTag_eraseKey_ne 3 1 (by decide), lookupTag_eraseKey_self]
          · rw [lookupTag_eraseKey_ne 5 1 (by decide),
              lookupTag_eraseKey_ne 5 3 (by decide), lookupTag_eraseKey_self]
      · match hpay : rest.take (read16 b2 b3 - 4), h with
        | a :: c :: ds, h =>
          rw [parseProtoRejectPayload] at h
          injection h with h
          rw [← h]
          exact ⟨rfl, rfl, rfl⟩
      · injection h with h
        rw [← h]
        exact ⟨rfl, rfl, rfl⟩
      · match hpay : rest.take (read16 b2 b3 - 4), h with
        | a :: c :: d :: e :: ds, h =>
          rw [parseEchoPayload] at h
          injection h with h
          rw [← h]
          exact ⟨rfl, rfl, rfl⟩
  intro b p h _ _
  exact hempty b p h

/-- Witness for C10: the scenario-5 Configure-Request parse carries only the
unknown option 42; none of the recognized types remain in the map. -/
theorem C10_witness :
    lookupTag 1 lcpVecPacket.UnknownOptions = none ∧
    lookupTag 3 lcpVecPacket.UnknownOptions = none ∧
    lookupTag 5 lcpVecPacket.UnknownOptions = none :=
  C10_unknown_options_free_of_recognized lcpVec lcpVecPacket (by decide)
    (by decide) (by decide)

/-! ## Discovery exact re-encoding on ascending-TLV inputs -/

theorem be16_read16 (hi lo : Nat) (h1 : hi < 256) (h2 : lo < 256) :
    be16 (read16 hi lo) = [hi, lo] := by
  rw [be16, read16]
  have e1 : (hi * 256 + lo) / 256 % 256 = hi := by omega
  have e2 : (hi * 256 + lo) % 256 = lo := by omega
  rw [e1, e2]

/-- On a byte stream the parser accepts and whose TLV types ascend, the
parsed tags extend the accumulator and re-encode to exactly the stream. -/
theorem parseTagsGo_asc_encode :
    ∀ (fuel : Nat) (pkt : List Nat) (acc tags : TagMap) (prev : Option Nat),
      pkt.length ≤ fuel →
      (∀ x ∈ pkt, x < 256) →
      parseTagsGo fuel pkt acc = some tags →
      tagsAscGo fuel prev pkt = true →
      (match prev with
       | none => acc = []
       | some k => ∀ kv ∈ acc, kv.1 ≤ k) →
      ∃ t, tags = acc ++ t ∧ encodeTags t = pkt := by
  intro fuel
  induction fuel with
  | zero =>
    intro pkt acc tags prev hlen _ hp _ _
    have : pkt = [] := List.length_eq_zero.mp (by omega)
    subst this
    injection hp with hp
    exact ⟨[], by simp [hp], rfl⟩
  | succ f ih =>
    intro pkt acc tags prev hlen hbytes hp hasc hacc
    rcases pkt with _ | ⟨t0, _ | ⟨t1, _ | ⟨l0, _ | ⟨l1, rest⟩⟩⟩⟩
    · injection hp with hp
      exact ⟨[], by simp [hp], rfl⟩
    · exact absurd hp (by simp [parseTagsGo])
    · exact absurd hp (by simp [parseTagsGo])
    · exact absurd hp (by simp [parseTagsGo])
    · simp only [parseTagsGo] at hp
      split_ifs at hp with hov hsvc
      simp only [tagsAscGo] at hasc
      rw [Bool.and_eq_true] at hasc
      obtain ⟨hascp, hascr⟩ := hasc
      rw [if_pos (by omega)] at hascr
      have ht0 : t0 < 256 := hbytes t0 (by simp)
      have ht1 : t1 < 256 := hbytes t1 (by simp)
      have hl0 : l0 < 256 := hbytes l0 (by simp)
      have hl1 : l1 < 256 := hbytes l1 (by simp)
      have hinsert : insertTag (read16 t0 t1) (rest.take (read16 l0 l1)) acc =
          acc ++ [(read16 t0 t1, rest.take (read16 l0 l1))] := by
        apply insertTag_append
        intro kv hkv
        cases prev with
        | none => rw [hacc] at hkv; simp at hkv
        | some k =>
          have h1 := hacc kv hkv
          have h2 : k < read16 t0 t1 := by
            simpa using hascp
          omega
      rw [hinsert] at hp
      obtain ⟨t, ht, henc⟩ := ih (rest.drop (read16 l0 l1))
        (acc ++ [(read16 t0 t1, rest.take (read16 l0 l1))]) tags
        (some (read16 t0 t1))
        (by have := List.length_drop (read16 l0 l1) rest
            simp only [List.length_cons] at hlen
            omega)
        (fun x hx => hbytes x (by
          rcases List.mem_of_mem_drop hx with h
          simp [h]))
        hp hascr
        (by intro kv hkv
            rcases List.mem_append.mp hkv with h | h
            · cases prev with
              | none => rw [hacc] at h; simp at h
              | some k =>
                have h1 := hacc kv h
                have h2 : k < read16 t0 t1 := by simpa using hascp
                omega
            · simp only [List.mem_singleton] at h
              subst h
              simp)
      refine ⟨(read16 t0 t1, rest.take (read16 l0 l1)) :: t, ?_, ?_⟩
      · rw [ht, List.append_assoc]
        rfl
      · rw [encodeTags, encodeTag, henc]
        rw [be16_read16 t0 t1 ht0 ht1]
        have hlen2 : (rest.take (read16 l0 l1)).length = read16 l0 l1 := by
          rw [List.length_take]
          omega
        rw [hlen2, be16_read16 l0 l1 hl0 hl1]
        simp [List.take_append_drop]

/-- On any accepted Discovery input whose TLV types are strictly ascending,
re-encoding the parsed packet reproduces the input byte for byte. -/
theorem parseDiscovery_asc_encode :
    ∀ (x : List Nat) (p : discoveryPacket),
      (∀ b ∈ x, b < 256) →
      parseDiscoveryPacket x = some p →
      discTagsAsc x = true →
      encodeDiscoveryPacket p = x := by
  intro x p hbytes hp hasc
  match x, hbytes, hp, hasc with
  | [], _, hp, _ => exact absurd hp (by simp [parseDiscoveryPacket])
  | [_], _, hp, _ => exact absurd hp (by simp [parseDiscoveryPacket])
  | [_, _], _, hp, _ => exact absurd hp (by simp [parseDiscoveryPacket])
  | [_, _, _], _, hp, _ => exact absurd hp (by simp [parseDiscoveryPacket])
  | [_, _, _, _], _, hp, _ => exact absurd hp (by simp [parseDiscoveryPacket])
  | [_, _, _, _, _], _, hp, _ => exact absurd hp (by simp [parseDiscoveryPacket])
  | b0 :: b1 :: b2 :: b3 :: b4 :: b5 :: rest, hbytes, hp, hasc =>
    rw [parseDiscoveryPacket] at hp
    rcases Decidable.em (b0 = 0x11) with hver | hver
    case inr => rw [if_pos hver] at hp; exact absurd hp (by simp)
    rw [if_neg (by simp [hver])] at hp
    rcases Decidable.em (read16 b4 b5 = rest.length) with hlen | hlen
    case inr => rw [if_pos hlen] at hp; exact absurd hp (by simp)
    rw [if_neg (by simp [hlen])] at hp
    cases hpt : parseTags rest [] with
    | none => rw [hpt] at hp; exact absurd hp (by simp)
    | some tags =>
      rw [hpt] at hp
      simp only [Option.map] at hp
      injection hp with hp
      rw [parseTags] at hpt
      rw [discTagsAsc, tagsAsc] at hasc
      obtain ⟨t, ht, henc⟩ := parseTagsGo_asc_encode rest.length rest [] tags none
        (le_refl _) (fun y hy => hbytes y (by simp [hy])) hpt hasc rfl
      rw [List.nil_append] at ht
      subst ht
      rw [← hp, encodeDiscoveryPacket]
      simp only
      have hL : (tags.map fun kv => kv.2.length).sum + 4 * tags.length =
          read16 b4 b5 := by
        have h2 := congrArg List.length henc
        rw [encodeTags_length] at h2
        omega
      rw [henc, hL]
      rw [be16_read16 b2 b3 (hbytes b2 (by simp)) (hbytes b3 (by simp)),
        be16_read16 b4 b5 (hbytes b4 (by simp)) (hbytes b5 (by simp))]
      have hb1 : b1 % 256 = b1 := Nat.mod_eq_of_lt (hbytes b1 (by simp))
      rw [hb1, hver]
      rfl

/-! ## LCP re-encoding length bound -/

theorem parseMRUOpt_length (v : List Nat) (n : Nat) (h : parseMRUOpt v = some n) :
    v.length = 2 := by
  match v, h with
  | [a, b], _ => rfl
  | [], h => exact absurd h (by simp [parseMRUOpt])
  | [_], h => exact absurd h (by simp [parseMRUOpt])
  | _ :: _ :: _ :: _, h => exact absurd h (by simp [parseMRUOpt])

theorem parseMagicOpt_length (v : List Nat) (n : Nat) (h : parseMagicOpt v = some n) :
    v.length = 4 := by
  match v, h with
  | [a, b, c, d], _ => rfl
  | [], h => exact absurd h (by simp [parseMagicOpt])
  | [_], h => exact absurd h (by simp [parseMagicOpt])
  | [_, _], h => exact absurd h (by simp [parseMagicOpt])
  | [_, _, _], h => exact absurd h (by simp [parseMagicOpt])
  | _ :: _ :: _ :: _ :: _ :: _, h => exact absurd h (by simp [parseMagicOpt])

theorem parseAuthProtoOpt_bound (v : List Nat) (ap chap : Nat)
    (h : parseAuthProtoOpt v = some (ap, chap)) :
    2 ≤ v.length ∧ (if chap ≠ 0 then (5 : Nat) else 4) ≤ 2 + v.length := by
  match v, h with
  | [], h => exact absurd h (by simp [parseAuthProtoOpt])
  | [_], h => exact absurd h (by simp [parseAuthProtoOpt])
  | a :: b :: rest, h =>
    simp only [parseAuthProtoOpt] at h
    by_cases hc : read16 a b = 0xc223
    · rw [if_pos hc] at h
      match rest, h with
      | [c], h =>
        injection h with h
        simp only [List.length_cons, List.length_nil]
        split_ifs <;> omega
      | [], h => exact absurd h (by simp)
      | _ :: _ :: _, h => exact absurd h (by simp)
    · rw [if_neg hc] at h
      match rest, h with
      | [], h =>
        injection h with h
        have hchap : chap = 0 := by
          have h2 := congrArg Prod.snd h
          simpa using h2.symm
        rw [hchap]
        simp
      | _ :: _, h => exact absurd h (by simp)

theorem sum_insertTag (k : Nat) (v : List Nat) :
    ∀ m : TagMap, ((insertTag k v m).map fun kv => 2 + kv.2.length).sum ≤
      2 + v.length + ((m.map fun kv => 2 + kv.2.length)).sum := by
  intro m
  induction m with
  | nil => simp [insertTag]
  | cons kv0 rest ih =>
    obtain ⟨k0, v0⟩ := kv0
    rw [insertTag]
    split_ifs with h1 h2
    · simp only [List.map_cons, List.sum_cons]
      omega
    · simp only [List.map_cons, List.sum_cons]
      omega
    · simp only [List.map_cons, List.sum_cons]
      omega

theorem sum_parseLCPOptionsGo :
    ∀ (fuel : Nat) (b : List Nat) (acc m : TagMap),
      parseLCPOptionsGo fuel b acc = some m →
      ((m.map fun kv => 2 + kv.2.length)).sum ≤
        b.length + ((acc.map fun kv => 2 + kv.2.length)).sum := by
  intro fuel
  induction fuel with
  | zero =>
    intro b acc m h
    match b, h with
    | [], h =>
      injection h with h
      subst h
      simp
    | [_], h => exact absurd h (by simp [parseLCPOptionsGo])
    | _ :: _ :: _, h => exact absurd h (by simp [parseLCPOptionsGo])
  | succ f ih =>
    intro b acc m h
    match b, h with
    | [], h =>
      injection h with h
      subst h
      simp
    | [_], h => exact absurd h (by simp [parseLCPOptionsGo])
    | t :: l :: rest, h =>
      rw [parseLCPOptionsGo] at h
      split_ifs at h with h2 hov
      have hrec := ih _ _ _ h
      have hins := sum_insertTag t (rest.take (l - 2)) acc
      have htake : (rest.take (l - 2)).length = l - 2 := by
        rw [List.length_take]
        omega
      have hdrop := List.length_drop (l - 2) rest
      simp only [List.length_cons]
      omega

theorem sum_eraseKey_le (k : Nat) :
    ∀ m : TagMap, ((eraseKey k m).map fun kv => 2 + kv.2.length).sum ≤
      ((m.map fun kv => 2 + kv.2.length)).sum := by
  intro m
  induction m with
  | nil => simp [eraseKey]
  | cons kv0 rest ih =>
    obtain ⟨k0, v0⟩ := kv0
    rw [eraseKey, List.filter_cons]
    split_ifs with h
    · rw [List.map_cons, List.sum_cons]
      rw [show List.filter (fun kv => decide (kv.1 ≠ k)) rest = eraseKey k rest from rfl]
      simp only [List.map_cons, List.sum_cons]
      omega
    · rw [show List.filter (fun kv => decide (kv.1 ≠ k)) rest = eraseKey k rest from rfl]
      simp only [List.map_cons, List.sum_cons]
      omega

theorem sum_eraseKey_lookup (k : Nat) :
    ∀ m : TagMap,
      ((eraseKey k m).map fun kv => 2 + kv.2.length).sum +
        (match lookupTag k m with
         | some v => 2 + v.length
         | none => 0) ≤
      ((m.map fun kv => 2 + kv.2.length)).sum := by
  intro m
  induction m with
  | nil => simp [eraseKey, lookupTag]
  | cons kv0 rest ih =>
    obtain ⟨k0, v0⟩ := kv0
    rw [eraseKey, List.filter_cons]
    by_cases h : k0 = k
    · have hcontrib : (match lookupTag k ((k0, v0) :: rest) with
          | some v => 2 + v.length
          | none => 0) = 2 + v0.length := by
        rw [show lookupTag k ((k0, v0) :: rest) = some v0 from by
          rw [h]; exact lookupTag_cons_self k v0 rest]
      rw [if_neg (by simp [h])]
      rw [show List.filter (fun kv => decide (kv.1 ≠ k)) rest = eraseKey k rest from rfl]
      rw [hcontrib]
      have := sum_eraseKey_le k rest
      simp only [List.map_cons, List.sum_cons]
      omega
    · have hcontrib : (match lookupTag k ((k0, v0) :: rest) with
          | some v => 2 + v.length
          | none => 0) = (match lookupTag k rest with
          | some v => 2 + v.length
          | none => 0) := by
        rw [lookupTag_cons_ne k k0 v0 rest (fun he => h he.symm)]
      rw [if_pos (by simpa using h)]
      rw [show List.filter (fun kv => decide (kv.1 ≠ k)) rest = eraseKey k rest from rfl]
      rw [hcontrib]
      simp only [List.map_cons, List.sum_cons]
      omega

/-- A successful `applyConfigOptions` yields a packet whose configure-family
re-encoding is no longer than the parsed option map's total encoded size. -/
theorem applyConfigOptions_code_length (b0 b1 : Nat) (opts : TagMap) (p : Packet)
    (h : applyConfigOptions (emptyPacket b0 b1) opts = some p) :
    p.Code = b0 ∧
    (configOptsBytes p).length ≤ ((opts.map fun kv => 2 + kv.2.length)).sum := by
  rw [applyConfigOptions] at h
  cases hm1 : (match lookupTag 1 opts with
      | none => some 0
      | some v => parseMRUOpt v) with
  | none => rw [hm1] at h; exact absurd h (by simp)
  | some mru =>
  rw [hm1, Option.some_bind] at h
  cases hm2 : (match lookupTag 3 opts with
      | none => some (0, 0)
      | some v => parseAuthProtoOpt v) with
  | none => rw [hm2] at h; exact absurd h (by simp)
  | some ap =>
  rw [hm2, Option.some_bind] at h
  obtain ⟨apv, chapv⟩ := ap
  cases hm3 : (match lookupTag 5 opts with
      | none => some 0
      | some v => parseMagicOpt v) with
  | none => rw [hm3] at h; exact absurd h (by simp)
  | some magic =>
  rw [hm3, Option.some_bind] at h
  injection h with h
  have hCode : p.Code = b0 := by rw [← h]; rfl
  have hMRU : p.MRU = mru := by rw [← h]
  have hAP : p.AuthProto = apv := by rw [← h]
  have hCH : p.CHAPAlgorithm = chapv := by rw [← h]
  have hMG : p.Magic = magic := by rw [← h]
  have hUO : p.UnknownOptions = eraseKey 1 (eraseKey 3 (eraseKey 5 opts)) := by rw [← h]
  refine ⟨hCode, ?_⟩
  rw [configOptsBytes, hMRU, hAP, hCH, hMG, hUO]
  have hb1 : (if mru ≠ 0 then (1 :: 4 :: be16 mru : List Nat) else []).length ≤
      (match lookupTag 1 opts with
       | some v => 2 + v.length
       | none => 0) := by
    by_cases hm : mru ≠ 0
    · rw [if_pos hm]
      cases hv : lookupTag 1 opts with
      | none =>
        rw [hv] at hm1
        injection hm1 with hm1
        exact absurd hm1.symm hm
      | some v =>
        rw [hv] at hm1
        have hvl := parseMRUOpt_length v mru hm1
        show _ ≤ 2 + v.length
        simp [be16, hvl]
    · rw [if_neg hm]
      simp
  have hb3 : (if apv ≠ 0 then
        3 :: (if chapv ≠ 0 then 5 else 4) :: be16 apv
          ++ (if chapv ≠ 0 then [chapv % 256] else [])
      else ([] : List Nat)).length ≤
      (match lookupTag 3 opts with
       | some v => 2 + v.length
       | none => 0) := by
    by_cases ha : apv ≠ 0
    · rw [if_pos ha]
      cases hv : lookupTag 3 opts with
      | none =>
        rw [hv] at hm2
        injection hm2 with hm2
        exact absurd (congrArg Prod.fst hm2.symm) (by simpa using ha)
      | some v =>
        rw [hv] at hm2
        show _ ≤ 2 + v.length
        obtain ⟨hv2, hvb⟩ := parseAuthProtoOpt_bound v apv chapv hm2
        by_cases hch : chapv ≠ 0
        · rw [if_pos hch] at hvb
          simp only [if_pos hch, List.length_cons, List.length_append, be16,
            List.length_singleton, List.length_nil]
          omega
        · rw [if_neg hch] at hvb
          simp only [if_neg hch, List.length_cons, List.length_append, be16,
            List.length_nil]
          omega
    · rw [if_neg ha]
      simp
  have hb5 : (if magic ≠ 0 then (5 :: 6 :: be32 magic : List Nat) else []).length ≤
      (match lookupTag 5 opts with
       | some v => 2 + v.length
       | none => 0) := by
    by_cases hg : magic ≠ 0
    · rw [if_pos hg]
      cases hv : lookupTag 5 opts with
      | none =>
        rw [hv] at hm3
        injection hm3 with hm3
        exact absurd hm3.symm hg
      | some v =>
        rw [hv] at hm3
        have hvl := parseMagicOpt_length v magic hm3
        show _ ≤ 2 + v.length
        simp [be32, hvl]
    · rw [if_neg hg]
      simp
  have hu := unknownOptsBytes_length (eraseKey 1 (eraseKey 3 (eraseKey 5 opts)))
  have step5 := sum_eraseKey_lookup 5 opts
  have step3 := sum_eraseKey_lookup 3 (eraseKey 5 opts)
  rw [lookupTag_eraseKey_ne 3 5 (by decide)] at step3
  have step1 := sum_eraseKey_lookup 1 (eraseKey 3 (eraseKey 5 opts))
  rw [lookupTag_eraseKey_ne 1 3 (by decide), lookupTag_eraseKey_ne 1 5 (by decide)] at step1
  simp only [List.length_append]
  omega

/-- A successful `lcpDispatch` yields a packet whose re-encoded body is no
longer than the payload it was parsed from. -/
theorem lcpDispatch_body_length (b0 b1 : Nat) (payload : List Nat) (p : Packet)
    (h : lcpDispatch b0 b1 payload = some p) :
    (lcpBody p).length ≤ payload.length := by
  rw [lcpDispatch] at h
  split_ifs at h with hc1 hc8 hc57 hc911
  · cases hop : parseLCPOptions payload [] with
    | none => rw [hop] at h; exact absurd h (by simp)
    | some opts =>
      rw [hop, Option.some_bind] at h
      obtain ⟨hcode, hlen⟩ := applyConfigOptions_code_length b0 b1 opts p h
      rw [lcpBody, if_pos (by rw [hcode]; exact hc1)]
      rw [parseLCPOptions] at hop
      have hsum := sum_parseLCPOptionsGo payload.length payload [] opts hop
      simp only [List.map_nil, List.sum_nil] at hsum
      omega
  · match payload, h with
    | a :: c :: ds, h =>
      rw [parseProtoRejectPayload] at h
      injection h with h
      have hCode : p.Code = b0 := by rw [← h]; rfl
      have hData : p.Data = ds := by rw [← h]
      have hRP : p.RejectedProtocol = read16 a c := by rw [← h]
      rw [lcpBody, hCode, hc8]
      rw [if_neg (by decide), if_pos rfl, hData]
      simp [be16]
  · injection h with h
    have hCode : p.Code = b0 := by rw [← h]; rfl
    have hData : p.Data = payload := by rw [← h]
    rw [lcpBody, hCode]
    rw [if_neg (by omega), if_neg (by omega), if_pos hc57, hData]
  · match payload, h with
    | a :: c :: d :: e :: ds, h =>
      rw [parseEchoPayload] at h
      injection h with h
      have hCode : p.Code = b0 := by rw [← h]; rfl
      have hData : p.Data = ds := by rw [← h]
      rw [lcpBody, hCode]
      rw [if_neg (by omega), if_neg (by omega), if_neg (by omega), if_pos hc911, hData]
      simp [be32]

/-- Any packet `Parse` accepts re-encodes into at most the input's length:
`Bytes` output is bounded by 2 plus the declared LCP length. -/
theorem Parse_some_bytes_length_le :
    ∀ (x : List Nat) (p : Packet), Parse x = some p → p.Bytes.length ≤ x.length := by
  intro x p h
  match x, h with
  | [], h => exact absurd h (by simp [Parse])
  | [_], h => exact absurd h (by simp [Parse])
  | [_, _], h => exact absurd h (by simp [Parse])
  | [_, _, _], h => exact absurd h (by simp [Parse])
  | [_, _, _, _], h => exact absurd h (by simp [Parse])
  | [_, _, _, _, _], h => exact absurd h (by simp [Parse])
  | p0 :: p1 :: b0 :: b1 :: b2 :: b3 :: rest, h =>
    rw [Parse] at h
    split_ifs at h with hpr h4 hov
    have hbody := lcpDispatch_body_length _ _ _ _ h
    have htake : (rest.take (read16 b2 b3 - 4)).length = read16 b2 b3 - 4 := by
      rw [List.length_take]
      omega
    rw [Packet.Bytes]
    simp only [List.length_cons]
    omega

/-- `Parse` consumes exactly the declared LCP length: appending arbitrary
trailing bytes leaves the result unchanged. -/
theorem Parse_append_pad (b pad : List Nat) (pkt : Packet) (h : Parse b = some pkt) :
    Parse (b ++ pad) = some pkt := by
  match b, h with
  | [], h => exact absurd h (by simp [Parse])
  | [_], h => exact absurd h (by simp [Parse])
  | [_, _], h => exact absurd h (by simp [Parse])
  | [_, _, _], h => exact absurd h (by simp [Parse])
  | [_, _, _, _], h => exact absurd h (by simp [Parse])
  | [_, _, _, _, _], h => exact absurd h (by simp [Parse])
  | p0 :: p1 :: b0 :: b1 :: b2 :: b3 :: rest, h =>
    rw [Parse] at h
    split_ifs at h with hpr h4 hov
    simp only [List.cons_append]
    rw [Parse]
    rw [if_neg hpr, if_neg h4, if_neg (by rw [List.length_append]; omega)]
    rw [List.take_append_of_le_length (by omega)]
    exact h

/-- C5: any byte sequence accepted by the LCP `Parse` still parses to the same
`Packet` after arbitrary trailing bytes are appended (only the declared LCP
length is consumed), and re-encoding that packet with `Bytes` stays within the
unpadded input's length, so the padding is never reproduced. -/
theorem C5_lcp_trailing_padding (b pad : List Nat) (pkt : Packet)
    (h : Parse b = some pkt) :
    Parse (b ++ pad) = some pkt ∧ (Packet.Bytes pkt).length ≤ b.length :=
  ⟨Parse_append_pad b pad pkt h, Parse_some_bytes_length_le b pkt h⟩

/-- C5 witness: the scenario-5 Configure-Request vector with three bytes of
zero padding still parses to the same packet, and re-encodes within bounds. -/
theorem C5_witness :
    Parse (lcpVec ++ [0, 0, 0]) = some lcpVecPacket ∧
      (Packet.Bytes lcpVecPacket).length ≤ lcpVec.length :=
  C5_lcp_trailing_padding lcpVec [0, 0, 0] lcpVecPacket (by decide)

/-- C6 (amended): for accepted inputs the re-encode invariants hold in this
form: a discovery packet whose tag area lists tag types in strictly ascending
order re-encodes byte-for-byte to its input, and an LCP packet re-encodes to
at most its input's length.  The claim's unrestricted form — that every
accepted input re-encodes to an initial segment of itself — is refuted by
`C6_counterexample`: Go map iteration is key-sorted here, so out-of-order
discovery tags re-encode reordered, and a zero-valued recognized LCP option
is dropped, shrinking the length field. -/
theorem C6_parse_reencode_invariants :
    (∀ (x : List Nat) (p : discoveryPacket),
       (∀ b ∈ x, b < 256) → parseDiscoveryPacket x = some p →
       discTagsAsc x = true → encodeDiscoveryPacket p = x) ∧
    (∀ (x : List Nat) (p : Packet), Parse x = some p →
       (Packet.Bytes p).length ≤ x.length) :=
  ⟨parseDiscovery_asc_encode, Parse_some_bytes_length_le⟩

/-- C6 witness: a concrete ascending-tag PADS frame re-encodes to itself, and
the scenario-5 LCP vector's packet re-encodes within the input length. -/
theorem C6_witness :
    encodeDiscoveryPacket { Code := 7, SessionID := 0, Tags := [(257, [])] } =
      [0x11, 7, 0, 0, 0, 4, 1, 1, 0, 0] ∧
    (Packet.Bytes lcpVecPacket).length ≤ lcpVec.length :=
  ⟨C6_parse_reencode_invariants.1 [0x11, 7, 0, 0, 0, 4, 1, 1, 0, 0]
      { Code := 7, SessionID := 0, Tags := [(257, [])] }
      (by decide) (by decide) (by decide),
    C6_parse_reencode_invariants.2 lcpVec lcpVecPacket (by decide)⟩

/-- C6 counterexample: a discovery frame with tag types out of order parses
but re-encodes to a different byte string that is not an initial segment of
the input, and an LCP Configure-Request carrying a zero-valued MRU option
re-encodes without that option, so its output disagrees with the input in the
length byte and is not an initial segment either. -/
theorem C6_counterexample :
    (parseDiscoveryPacket [0x11, 7, 0, 0, 0, 8, 1, 2, 0, 0, 1, 1, 0, 0] =
        some { Code := 7, SessionID := 0, Tags := [(257, []), (258, [])] } ∧
      encodeDiscoveryPacket { Code := 7, SessionID := 0, Tags := [(257, []), (258, [])] } ≠
        [0x11, 7, 0, 0, 0, 8, 1, 2, 0, 0, 1, 1, 0, 0] ∧
      List.take
          (encodeDiscoveryPacket
            { Code := 7, SessionID := 0, Tags := [(257, []), (258, [])] }).length
          [0x11, 7, 0, 0, 0, 8, 1, 2, 0, 0, 1, 1, 0, 0] ≠
        encodeDiscoveryPacket { Code := 7, SessionID := 0, Tags := [(257, []), (258, [])] }) ∧
    (Parse [0xc0, 0x21, 1, 1, 0, 8, 1, 4, 0, 0] = some (emptyPacket 1 1) ∧
      List.take (Packet.Bytes (emptyPacket 1 1)).length
          [0xc0, 0x21, 1, 1, 0, 8, 1, 4, 0, 0] ≠
        Packet.Bytes (emptyPacket 1 1)) := by
  decide

end GoPPP
